import Mathlib

/-!
# Kuroko `fileio` and `os` native modules

A shallow embedding of `src/module_fileio.c` and `src/module_os.c`.

* The C library (stdio, dirent, the environment table) is modelled by a `World`
  value threaded through every primitive; each primitive records itself in
  `World.trace`, so "which platform calls happened" is observable.
* A `FILE *` is an `Option FILE`; `NULL` is `none`.
* Native functions take the argument vector `argv` (`argc` is its length) and
  return the world, the argument vector after the call (objects are mutated in
  place in C, here the mutated object is handed back) and either a value or a
  raised exception.
* Loops that C does not bound are given a `fuel` argument and return `none`
  when the fuel runs out.
* A string or bytes value is the list of its bytes. Where the C code hands
  `AS_CSTRING(s)` to a primitive that takes a C string (`fopen`, `sprintf`,
  `unsetenv`), the whole list is handed over: strings are taken to be free of
  interior NUL bytes.
* Messages of exceptions keep the C format string; the arguments of the format
  are not rendered.
-/

namespace Kuroko

/-! ## Bytes and strings -/

/-- One `char` of storage. -/
abbrev Byte := Fin 256

/-- The byte 0x0A, written `\n` in the C source. -/
def NEWLINE : Byte := 10

/-- The byte `b` (0x62). -/
def CH_b : Byte := 98

/-- The byte `r` (0x72). -/
def CH_r : Byte := 114

/-- The byte `w` (0x77). -/
def CH_w : Byte := 119

/-- The byte `a` (0x61). -/
def CH_a : Byte := 97

/-- The byte `+` (0x2B). -/
def CH_plus : Byte := 43

/-- The byte `=` (0x3D). -/
def CH_eq : Byte := 61

/-- The C macro `BLOCK_SIZE`. -/
def BLOCK_SIZE : Nat := 1024

/-! ## The platform: stdio streams, directory streams, environment -/

/-- State of one stdio stream (`FILE`). `data` is the content of the underlying
file as seen through this stream, `pos` the file position, `eof` and `err` the
end-of-file and error indicators. -/
structure FILE where
  fd : Nat
  path : List Byte
  data : List Byte
  pos : Nat
  readable : Bool
  writable : Bool
  append : Bool
  eof : Bool
  err : Bool
  deriving DecidableEq, Repr

/-- State of one directory stream (`DIR`): the entries not yet returned, each a
name and an inode number. -/
structure DIR where
  fd : Nat
  pending : List (List Byte × Nat)
  deriving DecidableEq, Repr

/-- A call of a platform primitive, as recorded in the trace. -/
inductive Call where
  | fopen (path mode : List Byte)
  | fclose (fd : Nat)
  | fflush (fd : Nat)
  | fgetc (fd : Nat)
  | fread (fd : Nat) (nmemb : Nat)
  | fwrite (fd : Nat) (payload : List Byte)
  | opendir (path : List Byte)
  | readdir (fd : Nat)
  | closedir (fd : Nat)
  | putenv (string : List Byte)
  | unsetenv (name : List Byte)
  deriving DecidableEq, Repr

/-- Everything outside the process image: the file system, the directories, the
environment table (`environ`, possibly `NULL`), whether the C heap is exhausted
(the one way `putenv` fails), the next free descriptor, and the trace of
platform calls, newest first. -/
structure World where
  files : List (List Byte × List Byte)
  dirs : List (List Byte × List (List Byte × Nat))
  environ : Option (List (List Byte))
  nomem : Bool
  nextFd : Nat
  trace : List Call
  deriving DecidableEq, Repr

/-- Record a platform call. -/
def World.log (w : World) (c : Call) : World :=
  { w with trace := c :: w.trace }

/-- Content of the file at `path`, if it exists. -/
def lookupFile : List (List Byte × List Byte) → List Byte → Option (List Byte)
  | [], _ => none
  | (p, d) :: rest, path => if p = path then some d else lookupFile rest path

/-- Create or replace the file at `path`. -/
def storeFile : List (List Byte × List Byte) → List Byte → List Byte →
    List (List Byte × List Byte)
  | [], path, d => [(path, d)]
  | (p, d0) :: rest, path, d =>
    if p = path then (p, d) :: rest else (p, d0) :: storeFile rest path d

/-- The platform `fopen`. The first mode character selects read, write
(create or truncate) or append; a `+` after it opens for update. Any other
mode, or a missing file in read mode, gives `NULL`. -/
def fopen (w : World) (path mode : List Byte) : World × Option FILE :=
  let w1 := w.log (.fopen path mode)
  match mode with
  | [] => (w1, none)
  | c :: rest =>
    let plus := rest.contains CH_plus
    if c = CH_r then
      match lookupFile w.files path with
      | none => (w1, none)
      | some d =>
        ({ w1 with nextFd := w.nextFd + 1 },
         some { fd := w.nextFd, path := path, data := d, pos := 0, readable := true,
                writable := plus, append := false, eof := false, err := false })
    else if c = CH_w then
      ({ w1 with files := storeFile w.files path [], nextFd := w.nextFd + 1 },
       some { fd := w.nextFd, path := path, data := [], pos := 0, readable := plus,
              writable := true, append := false, eof := false, err := false })
    else if c = CH_a then
      let d := (lookupFile w.files path).getD []
      ({ w1 with files := storeFile w.files path d, nextFd := w.nextFd + 1 },
       some { fd := w.nextFd, path := path, data := d, pos := 0, readable := plus,
              writable := true, append := true, eof := false, err := false })
    else (w1, none)

/-- The platform `feof`: reads the end-of-file indicator. -/
def feof (f : FILE) : Bool := f.eof

/-- The platform `ferror`: reads the error indicator. -/
def ferror (f : FILE) : Bool := f.err

/-- The platform `fgetc`: the next byte as a non-negative `int`, or `EOF` (-1).
At the end of the data the end-of-file indicator is set; on a stream that is
not open for reading the error indicator is set and end-of-file is not. -/
def fgetc (w : World) (f : FILE) : World × FILE × Int :=
  let w1 := w.log (.fgetc f.fd)
  if !f.readable then (w1, { f with err := true }, -1)
  else
    match f.data[f.pos]? with
    | some b => (w1, { f with pos := f.pos + 1 }, (b.val : Int))
    | none => (w1, { f with eof := true }, -1)

/-- The platform `fread(ptr, 1, nmemb, stream)`: the bytes delivered. A short
count on a readable stream means the end of the data was reached and sets the
end-of-file indicator; a stream not open for reading delivers nothing and sets
the error indicator. -/
def fread (w : World) (f : FILE) (nmemb : Nat) : World × FILE × List Byte :=
  let w1 := w.log (.fread f.fd nmemb)
  if !f.readable then (w1, { f with err := true }, [])
  else
    let chunk := (f.data.drop f.pos).take nmemb
    (w1, { f with pos := f.pos + chunk.length,
                  eof := f.eof || decide (chunk.length < nmemb) }, chunk)

/-- The platform `fwrite(ptr, 1, n, stream)`: the count written. A stream not
open for writing writes nothing and sets the error indicator; an append stream
writes at the end of the data. -/
def fwrite (w : World) (f : FILE) (payload : List Byte) : World × FILE × Nat :=
  let w1 := w.log (.fwrite f.fd payload)
  if !f.writable then (w1, { f with err := true }, 0)
  else
    let at_ := if f.append then f.data.length else f.pos
    (w1, { f with data := f.data.take at_ ++ payload ++ f.data.drop (at_ + payload.length),
                  pos := at_ + payload.length }, payload.length)

/-- The platform `fflush`: buffered output reaches the file system. -/
def fflush (w : World) (f : FILE) : World :=
  let w1 := w.log (.fflush f.fd)
  if f.writable then { w1 with files := storeFile w.files f.path f.data } else w1

/-- The platform `fclose`: flushes and releases the stream. -/
def fclose (w : World) (f : FILE) : World :=
  let w1 := w.log (.fclose f.fd)
  if f.writable then { w1 with files := storeFile w.files f.path f.data } else w1

/-- The platform `closedir`. -/
def closedir (w : World) (d : DIR) : World :=
  w.log (.closedir d.fd)

/-- The C `realloc`: a block of `n` bytes that keeps the old content. -/
def realloc (buffer : List Byte) (n : Nat) : List Byte :=
  buffer.take n ++ List.replicate (n - buffer.length) 0

/-- Store `bytes` at offset `off` of a block; nothing is stored outside it. -/
def poke (buffer : List Byte) (off : Nat) (bytes : List Byte) : List Byte :=
  (buffer.take off ++ bytes ++ buffer.drop (off + bytes.length)).take buffer.length

/-! ## Host values -/

/-- The classes these modules create or use. -/
inductive KrkClass where
  | objectClass
  | dictClass
  | FileClass
  | BinaryFileClass
  | Directory
  | environClass
  deriving DecidableEq, Repr

/-- The base class given to `krk_makeClass` / `krk_newClass`. -/
def KrkClass.base : KrkClass → Option KrkClass
  | .objectClass => none
  | .dictClass => some .objectClass
  | .FileClass => some .objectClass
  | .BinaryFileClass => some .FileClass
  | .Directory => some .objectClass
  | .environClass => some .dictClass

/-- An instance: its class, its field table, the native pointers of
`struct FileObject` and `struct Directory`, and the table of a dict. -/
structure KrkInstance (V : Type) where
  _class : KrkClass
  fields : List (String × V)
  filePtr : Option FILE
  dirPtr : Option DIR
  dict : List (List Byte × V)

/-- A host value. -/
inductive KrkValue where
  | NONE
  | BOOLEAN (b : Bool)
  | INTEGER (n : Int)
  | STRING (chars : List Byte)
  | BYTES (bytes : List Byte)
  | LIST (items : List KrkValue)
  | INSTANCE (inst : KrkInstance KrkValue)

/-- The exception classes of `vm.exceptions` used here. -/
inductive ExceptionClass where
  | argumentError
  | typeError
  | ioError
  | baseException
  | valueError
  | keyError
  deriving DecidableEq, Repr

/-- A raised exception. -/
structure KrkError where
  type : ExceptionClass
  msg : String
  deriving DecidableEq, Repr

/-- What a native function leaves behind: the world, the argument vector with
the objects as they are after the call, and the value returned or the
exception raised. -/
structure Ret where
  world : World
  argv : List KrkValue
  result : Except KrkError KrkValue

/-- Modelled from the spec: `krk_runtimeError` belongs to the host virtual
machine and is not part of the excerpt. Raised conditions "cross the boundary
as host-level typed errors": the call changes nothing and the native function
returns with the exception raised. -/
def krk_runtimeError (w : World) (argv : List KrkValue) (type : ExceptionClass)
    (msg : String) : Ret :=
  ⟨w, argv, .error ⟨type, msg⟩⟩

/-- Whether class `c` is `target` or derives from it: a walk up the chain of
base classes, which has at most three links here. -/
def isSubclassOf (c target : KrkClass) : Bool :=
  c = target ||
  match c.base with
  | none => false
  | some b =>
    b = target ||
    match b.base with
    | none => false
    | some b2 => b2 = target

/-- Modelled from the spec: `krk_isInstanceOf` belongs to the host object model
and is not part of the excerpt: a value is an instance of a class when it is
an object whose class is that class or derives from it. -/
def krk_isInstanceOf (v : KrkValue) (cls : KrkClass) : Bool :=
  match v with
  | .INSTANCE inst => isSubclassOf inst._class cls
  | _ => false

/-- Modelled from the spec: `krk_tableSet` belongs to the host virtual machine
and is not part of the excerpt. A table is a mapping with unique keys: the
value of an existing key is replaced, a new key is added. -/
def krk_tableSet {K V : Type} [DecidableEq K] : List (K × V) → K → V → List (K × V)
  | [], k, v => [(k, v)]
  | (k0, v0) :: rest, k, v =>
    if k0 = k then (k0, v) :: rest else (k0, v0) :: krk_tableSet rest k v

/-- Modelled from the spec: `krk_tableGet` belongs to the host virtual machine
and is not part of the excerpt: the plain lookup of a mapping. -/
def krk_tableGet {K V : Type} [DecidableEq K] : List (K × V) → K → Option V
  | [], _ => none
  | (k0, v0) :: rest, k => if k0 = k then some v0 else krk_tableGet rest k

/-- Modelled from the spec: `krk_tableDelete` belongs to the host virtual machine
and is not part of the excerpt: the table without the key, and whether the key
was there. -/
def krk_tableDelete {K V : Type} [DecidableEq K] : List (K × V) → K → List (K × V) × Bool
  | [], _ => ([], false)
  | (k0, v0) :: rest, k =>
    if k0 = k then (rest, true)
    else ((k0, v0) :: (krk_tableDelete rest k).1, (krk_tableDelete rest k).2)

/-- Modelled from the spec: `krk_attachNamedValue` belongs to the host virtual
machine and is not part of the excerpt: it sets the field of that name. -/
def krk_attachNamedValue (fields : List (String × KrkValue)) (name : String)
    (v : KrkValue) : List (String × KrkValue) :=
  krk_tableSet fields name v

/-- Modelled from the spec: `krk_newInstance` belongs to the host virtual machine
and is not part of the excerpt: a fresh object of the class, without fields
and with the native part zeroed. -/
def krk_newInstance (cls : KrkClass) : KrkInstance KrkValue :=
  { _class := cls, fields := [], filePtr := none, dirPtr := none, dict := [] }

/-! ## `module_fileio.c` -/

/-- Lines 60-75 of `krk_open`: `fopen` with the string on top of the stack,
then build the object. `arg` is the value stored as `modestr`. -/
def krk_open_build (w : World) (argv : List KrkValue) (filename : List Byte)
    (arg : List Byte) (top : List Byte) (isBinary : Bool) : Ret :=
  match fopen w filename top with
  | (w1, none) =>
    krk_runtimeError w1 argv .ioError "open: failed to open file; system returned: %s"
  | (w1, some file) =>
    let fileObject := krk_newInstance (if isBinary then .BinaryFileClass else .FileClass)
    let fields1 := krk_attachNamedValue fileObject.fields "filename" (.STRING filename)
    let fields2 := krk_attachNamedValue fields1 "modestr" (.STRING arg)
    ⟨w1, argv, .ok (.INSTANCE { fileObject with fields := fields2, filePtr := some file })⟩

/-- The C `krk_open`. -/
def krk_open (w : World) (argv : List KrkValue) : Ret :=
  if argv.length < 1 then
    krk_runtimeError w argv .argumentError "open() takes at least 1 argument."
  else if argv.length > 2 then
    krk_runtimeError w argv .argumentError "open() takes at most 2 argument."
  else
    match (argv[0]? : Option KrkValue) with
    | some (.STRING filename) =>
      match (argv[1]? : Option KrkValue) with
      | none => krk_open_build w argv filename [CH_r] [CH_r] false
      | some (.STRING mode) =>
        if mode.length = 0 then
          krk_runtimeError w argv .typeError "open: mode string must not be empty"
        else if (List.range (mode.length - 1)).any (fun i => mode[i]? = some CH_b) then
          krk_runtimeError w argv .typeError
            "open: \x27b\x27 mode indicator must appear at end of mode string"
        else if mode[mode.length - 1]? = some CH_b then
          krk_open_build w argv filename mode (mode.take (mode.length - 1)) true
        else
          krk_open_build w argv filename mode mode false
      | some _ =>
        krk_runtimeError w argv .typeError
          "open: second argument should be a mode string, not \x27%s\x27"
    | _ =>
      krk_runtimeError w argv .typeError
        "open: first argument should be a filename string, not \x27%s\x27"

/-- State of the read loops: the stream, the scratch buffer and the two
counters `sizeRead` and `spaceAvailable`. -/
structure ReadState where
  world : World
  file : FILE
  buffer : List Byte
  sizeRead : Nat
  spaceAvailable : Nat

/-- The growth step at the head of each `do` iteration (lines 108-111,
170-173, 281-284, 345-348). -/
def growBuffer (s : ReadState) : ReadState :=
  if s.spaceAvailable < s.sizeRead + BLOCK_SIZE then
    let spaceAvailable := if s.spaceAvailable ≠ 0 then s.spaceAvailable * 2 else 2 * BLOCK_SIZE
    { s with spaceAvailable := spaceAvailable, buffer := realloc s.buffer spaceAvailable }
  else s

/-- The C conversion of the `int` returned by `fgetc` to a `char`. -/
def toChar (c : Int) : Byte := Fin.ofNat c.toNat

/-- The inner `while (sizeRead < spaceAvailable)` loop of `readline` (lines
114-120 and 287-293). The flag is true when the loop left through
`goto _finish_line`. -/
def readline_while : Nat → ReadState → Option (ReadState × Bool)
  | 0, _ => none
  | fuel + 1, s =>
    if s.sizeRead < s.spaceAvailable then
      match fgetc s.world s.file with
      | (w1, f1, c) =>
        if c < 0 then some ({ s with world := w1, file := f1 }, false)
        else
          let s1 : ReadState :=
            { s with world := w1, file := f1, sizeRead := s.sizeRead + 1,
                     buffer := s.buffer.set s.sizeRead (toChar c) }
          if c = (NEWLINE.val : Int) then some (s1, true)
          else readline_while fuel s1
    else some (s, false)

/-- The `do ... while (!feof(file))` loop of `readline` (lines 107-121 and
280-294), up to the label `_finish_line`. -/
def readline_do : Nat → ReadState → Option ReadState
  | 0, _ => none
  | fuel + 1, s =>
    match readline_while fuel (growBuffer s) with
    | none => none
    | some (s1, true) => some s1
    | some (s1, false) => if !feof s1.file then readline_do fuel s1 else some s1

/-- The body shared by `krk_file_readline` and `krk_file_readline_b` after the
class check (lines 97-132 and 270-305, which differ only in the constructor of
the result, `mk`). -/
def readline_body (mk : List Byte → KrkValue) (fuel : Nat) (w : World)
    (self : KrkInstance KrkValue) (rest : List KrkValue) : Option Ret :=
  match self.filePtr with
  | none => some ⟨w, .INSTANCE self :: rest, .ok .NONE⟩
  | some file =>
    if feof file then some ⟨w, .INSTANCE self :: rest, .ok .NONE⟩
    else
      match readline_do fuel ⟨w, file, [], 0, 0⟩ with
      | none => none
      | some s =>
        let argv1 := KrkValue.INSTANCE { self with filePtr := some s.file } :: rest
        if s.sizeRead = 0 then some ⟨s.world, argv1, .ok .NONE⟩
        else some ⟨s.world, argv1, .ok (mk (s.buffer.take s.sizeRead))⟩

/-- The C `krk_file_readline`. -/
def krk_file_readline (fuel : Nat) (w : World) (argv : List KrkValue) : Option Ret :=
  match argv with
  | .INSTANCE self :: rest =>
    if !krk_isInstanceOf (.INSTANCE self) .FileClass then
      some (krk_runtimeError w argv .typeError "argument must be File")
    else readline_body .STRING fuel w self rest
  | _ => some (krk_runtimeError w argv .typeError "argument must be File")

/-- The C `krk_file_readline_b`. -/
def krk_file_readline_b (fuel : Nat) (w : World) (argv : List KrkValue) : Option Ret :=
  match argv with
  | .INSTANCE self :: rest =>
    if !krk_isInstanceOf (.INSTANCE self) .BinaryFileClass then
      some (krk_runtimeError w argv .typeError "argument must be BinaryFile")
    else readline_body .BYTES fuel w self rest
  | _ => some (krk_runtimeError w argv .typeError "argument must be BinaryFile")

/-- The `for (;;)` loop of `krk_file_readlines` / `krk_file_readlines_b` (lines
141-148 and 314-321); `readline` is the native called with `argc = 1`. An
exception left pending by that call makes `line` the none value, so the loop
ends and the exception surfaces. -/
def readlines_loop (readline : Nat → World → List KrkValue → Option Ret) :
    Nat → World → KrkValue → List KrkValue → List KrkValue → Option Ret
  | 0, _, _, _, _ => none
  | fuel + 1, w, self, rest, myList =>
    match readline fuel w [self] with
    | none => none
    | some r =>
      let self1 := r.argv.headD self
      match r.result with
      | .error e => some ⟨r.world, self1 :: rest, .error e⟩
      | .ok .NONE => some ⟨r.world, self1 :: rest, .ok (.LIST myList)⟩
      | .ok line => readlines_loop readline fuel r.world self1 rest (myList ++ [line])

/-- The C `krk_file_readlines`. -/
def krk_file_readlines (fuel : Nat) (w : World) (argv : List KrkValue) : Option Ret :=
  match argv with
  | .INSTANCE self :: rest =>
    if !krk_isInstanceOf (.INSTANCE self) .FileClass then
      some (krk_runtimeError w argv .typeError "argument must be File")
    else readlines_loop krk_file_readline fuel w (.INSTANCE self) rest []
  | _ => some (krk_runtimeError w argv .typeError "argument must be File")

/-- The C `krk_file_readlines_b`. -/
def krk_file_readlines_b (fuel : Nat) (w : World) (argv : List KrkValue) : Option Ret :=
  match argv with
  | .INSTANCE self :: rest =>
    if !krk_isInstanceOf (.INSTANCE self) .BinaryFileClass then
      some (krk_runtimeError w argv .typeError "argument must be BinaryFile")
    else readlines_loop krk_file_readline_b fuel w (.INSTANCE self) rest []
  | _ => some (krk_runtimeError w argv .typeError "argument must be BinaryFile")

/-- The `do ... while (!feof(file))` loop of `read` (lines 169-186 and
344-361). The flag is true when the loop left through the `ferror` branch. -/
def read_do : Nat → ReadState → Option (ReadState × Bool)
  | 0, _ => none
  | fuel + 1, s =>
    let s1 := growBuffer s
    match fread s1.world s1.file BLOCK_SIZE with
    | (w1, f1, chunk) =>
      let s2 : ReadState :=
        { s1 with world := w1, file := f1, buffer := poke s1.buffer s1.sizeRead chunk }
      let newlyRead := chunk.length
      if newlyRead < BLOCK_SIZE && ferror f1 then some (s2, true)
      else
        let s3 : ReadState := { s2 with sizeRead := s2.sizeRead + newlyRead }
        if !feof f1 then read_do fuel s3 else some (s3, false)

/-- The body shared by `krk_file_read` and `krk_file_read_b` after the class
check (lines 158-191 and 333-366, which differ only in the constructor of the
result, `mk`). -/
def read_body (mk : List Byte → KrkValue) (fuel : Nat) (w : World)
    (self : KrkInstance KrkValue) (rest : List KrkValue) : Option Ret :=
  match self.filePtr with
  | none => some ⟨w, .INSTANCE self :: rest, .ok .NONE⟩
  | some file =>
    if feof file then some ⟨w, .INSTANCE self :: rest, .ok .NONE⟩
    else
      match read_do fuel ⟨w, file, [], 0, 0⟩ with
      | none => none
      | some (s, failed) =>
        let argv1 := KrkValue.INSTANCE { self with filePtr := some s.file } :: rest
        if failed then some ⟨s.world, argv1, .error ⟨.ioError, "Read error."⟩⟩
        else some ⟨s.world, argv1, .ok (mk (s.buffer.take s.sizeRead))⟩

/-- The C `krk_file_read`. -/
def krk_file_read (fuel : Nat) (w : World) (argv : List KrkValue) : Option Ret :=
  match argv with
  | .INSTANCE self :: rest =>
    if !krk_isInstanceOf (.INSTANCE self) .FileClass then
      some (krk_runtimeError w argv .typeError "argument must be File")
    else read_body .STRING fuel w self rest
  | _ => some (krk_runtimeError w argv .typeError "argument must be File")

/-- The C `krk_file_read_b`. -/
def krk_file_read_b (fuel : Nat) (w : World) (argv : List KrkValue) : Option Ret :=
  match argv with
  | .INSTANCE self :: rest =>
    if !krk_isInstanceOf (.INSTANCE self) .BinaryFileClass then
      some (krk_runtimeError w argv .typeError "argument must be BinaryFile")
    else read_body .BYTES fuel w self rest
  | _ => some (krk_runtimeError w argv .typeError "argument must be BinaryFile")

/-- Lines 200-206 and 376-382: the guard on the stream and the `fwrite`. -/
def write_body (w : World) (self : KrkInstance KrkValue) (payload : List Byte)
    (tail : List KrkValue) : Ret :=
  match self.filePtr with
  | none => ⟨w, .INSTANCE self :: tail, .ok .NONE⟩
  | some file =>
    if feof file then ⟨w, .INSTANCE self :: tail, .ok .NONE⟩
    else
      match fwrite w file payload with
      | (w1, f1, n) =>
        ⟨w1, .INSTANCE { self with filePtr := some f1 } :: tail, .ok (.INTEGER (n : Int))⟩

/-- The C `krk_file_write`. -/
def krk_file_write (w : World) (argv : List KrkValue) : Ret :=
  match argv with
  | .INSTANCE self :: .STRING chars :: rest =>
    if !krk_isInstanceOf (.INSTANCE self) .FileClass then
      krk_runtimeError w argv .typeError "write: expected string"
    else write_body w self chars (.STRING chars :: rest)
  | _ => krk_runtimeError w argv .typeError "write: expected string"

/-- The C `krk_file_write_b`. -/
def krk_file_write_b (w : World) (argv : List KrkValue) : Ret :=
  match argv with
  | .INSTANCE self :: .BYTES bytes :: rest =>
    if !krk_isInstanceOf (.INSTANCE self) .BinaryFileClass then
      krk_runtimeError w argv .typeError "write: expected bytes"
    else write_body w self bytes (.BYTES bytes :: rest)
  | _ => krk_runtimeError w argv .typeError "write: expected bytes"

/-- The C `krk_file_close`. -/
def krk_file_close (w : World) (argv : List KrkValue) : Ret :=
  match argv with
  | .INSTANCE self :: rest =>
    if !krk_isInstanceOf (.INSTANCE self) .FileClass then
      krk_runtimeError w argv .typeError "argument must be File"
    else
      match self.filePtr with
      | none => ⟨w, argv, .ok .NONE⟩
      | some file =>
        ⟨fclose w file, .INSTANCE { self with filePtr := none } :: rest, .ok .NONE⟩
  | _ => krk_runtimeError w argv .typeError "argument must be File"

/-- The C `krk_file_flush`. -/
def krk_file_flush (w : World) (argv : List KrkValue) : Ret :=
  match argv with
  | .INSTANCE self :: _ =>
    if !krk_isInstanceOf (.INSTANCE self) .FileClass then
      krk_runtimeError w argv .typeError "argument must be File"
    else
      match self.filePtr with
      | none => ⟨w, argv, .ok .NONE⟩
      | some file => ⟨fflush w file, argv, .ok .NONE⟩
  | _ => krk_runtimeError w argv .typeError "argument must be File"

/-- The C `krk_file_exit`. -/
def krk_file_exit (w : World) (argv : List KrkValue) : Ret :=
  krk_file_close w argv

/-- The C `_file_sweep`, the collector hook of `FileClass`. -/
def _file_sweep (w : World) (self : KrkInstance KrkValue) : World × KrkInstance KrkValue :=
  match self.filePtr with
  | some file => (fclose w file, { self with filePtr := none })
  | none => (w, self)

/-- The C `_dir_sweep`, the collector hook of `Directory`. -/
def _dir_sweep (w : World) (self : KrkInstance KrkValue) : World × KrkInstance KrkValue :=
  match self.dirPtr with
  | some dir => (closedir w dir, { self with dirPtr := none })
  | none => (w, self)

/-- The method `Directory.close` (lines 443-449). The macros `KRK_METHOD` and
`METHOD_TAKES_NONE` come from `util.h`, which is not part of the excerpt; they
are modelled from the spec ("wrong argument count/type" is a usage error,
`close()` yields a no-op result): the receiver must be a `Directory`, `argc`
must be 1, and a body that falls through returns the none value. -/
def Directory_close (w : World) (argv : List KrkValue) : Ret :=
  match argv with
  | .INSTANCE self :: rest =>
    if !krk_isInstanceOf (.INSTANCE self) .Directory then
      krk_runtimeError w argv .typeError "expected Directory"
    else if argv.length ≠ 1 then
      krk_runtimeError w argv .argumentError "close() takes no arguments"
    else
      match self.dirPtr with
      | some dir =>
        ⟨closedir w dir, .INSTANCE { self with dirPtr := none } :: rest, .ok .NONE⟩
      | none => ⟨w, argv, .ok .NONE⟩
  | _ => krk_runtimeError w argv .typeError "expected Directory"

/-! ## `module_os.c` -/

/-- Whether the environment entry `entry` defines the variable `name`. -/
def envDefines (name entry : List Byte) : Bool :=
  entry.take (name.length + 1) = name ++ [CH_eq]

/-- Replace the first entry that defines `name` by `string`, or add `string`. -/
def envPut (name string : List Byte) : List (List Byte) → List (List Byte)
  | [] => [string]
  | e :: rest => if envDefines name e then string :: rest else e :: envPut name string rest

/-- The platform `putenv`: the string becomes part of the environment (a string
without `=` removes the variable of that name). It fails, returning non-zero,
only when the table cannot be grown. -/
def putenv (w : World) (string : List Byte) : World × Int :=
  let w1 := w.log (.putenv string)
  if w.nomem then (w1, -1)
  else
    let env := w.environ.getD []
    if string.contains CH_eq then
      ({ w1 with environ := some (envPut (string.takeWhile (· ≠ CH_eq)) string env) }, 0)
    else
      ({ w1 with environ := some (env.filter (fun e => !envDefines string e)) }, 0)

/-- The platform `unsetenv`: fails with -1 when the name is empty or contains
`=`, and otherwise removes every definition of the name and returns 0. -/
def unsetenv (w : World) (name : List Byte) : World × Int :=
  let w1 := w.log (.unsetenv name)
  if name = [] || name.contains CH_eq then (w1, -1)
  else
    ({ w1 with environ := w.environ.map (fun env => env.filter (fun e => !envDefines name e)) }, 0)

/-- Modelled from the spec: the host dict deleter `vm.baseClasses.dictClass->_delitem`
is part of the virtual machine and not of this excerpt; it is "the mapping's
normal delete semantics": a key that is present is removed and every other key
is as before; deleting a key that is absent raises a key error and changes
nothing. -/
def dict_delitem (w : World) (argv : List KrkValue) : Ret :=
  match argv with
  | .INSTANCE self :: .STRING key :: rest =>
    if (krk_tableDelete self.dict key).2 then
      ⟨w, .INSTANCE { self with dict := (krk_tableDelete self.dict key).1 } ::
            .STRING key :: rest, .ok .NONE⟩
    else krk_runtimeError w argv .keyError "key error"
  | _ => krk_runtimeError w argv .argumentError "wrong number of arguments"

/-- The C `krk_os_unsetenviron`, in the branch compiled when `_WIN32` is not
defined. -/
def krk_os_unsetenviron (w : World) (argv : List KrkValue) : Ret :=
  match argv with
  | .INSTANCE self :: .STRING key :: _ =>
    if !krk_isInstanceOf (.INSTANCE self) .environClass then
      krk_runtimeError w argv .argumentError "Invalid arguments to environ.__delitem__"
    else
      match unsetenv w key with
      | (w1, _) =>
        let r1 := dict_delitem w1 [.INSTANCE self, .STRING key]
        ⟨r1.world, r1.argv.take 1 ++ argv.drop 1, r1.result⟩
  | _ => krk_runtimeError w argv .argumentError "Invalid arguments to environ.__delitem__"

/-! ## Drivers used to state properties of call sequences -/

/-- Call a native function `n` times in a row on the same arguments, each call
starting from the world and the objects the previous one left, and keep every
outcome. -/
def callRepeatedly (native : World → List KrkValue → Option Ret) :
    Nat → World → List KrkValue → Option (List Ret)
  | 0, _, _ => some []
  | n + 1, w, argv =>
    match native w argv with
    | none => none
    | some r => (callRepeatedly native n r.world r.argv).map (fun rs => r :: rs)

/-- The file position of the receiver after a call, when its stream is open. -/
def Ret.filePos (r : Ret) : Option Nat :=
  match r.argv with
  | .INSTANCE inst :: _ => inst.filePtr.map (fun f => f.pos)
  | _ => none

/-- The pieces a line reader should deliver for a content made of `lines`
(given without their newline), each followed by a newline, and then `tail`. -/
def linePieces (lines : List (List Byte)) (tail : List Byte) : List (List Byte) :=
  lines.map (fun l => l ++ [NEWLINE]) ++ (if tail = [] then [] else [tail])

/-- The offsets at which the successive pieces end, counted from `start`. -/
def endOffsets : Nat → List (List Byte) → List Nat
  | _, [] => []
  | start, p :: ps => (start + p.length) :: endOffsets (start + p.length) ps

/-- The write / read-back scenario: open `path` for writing in the given kind
(mode `w`, or `wb` for binary), write the payload, close, reopen for reading in
the same kind (mode `r` or `rb`) and read everything. The outcome is the result
of `write` and the result of `read`. -/
def writeThenReadAll (binary : Bool) (fuel : Nat) (w : World) (path payload : List Byte) :
    Option (Except KrkError KrkValue × Except KrkError KrkValue) :=
  let r1 := krk_open w [.STRING path, .STRING (if binary then [CH_w, CH_b] else [CH_w])]
  match r1.result with
  | .error e => some (.error e, .error e)
  | .ok out =>
    let r2 :=
      if binary then krk_file_write_b r1.world [out, .BYTES payload]
      else krk_file_write r1.world [out, .STRING payload]
    let r3 := krk_file_close r2.world (r2.argv.take 1)
    let r4 := krk_open r3.world [.STRING path, .STRING (if binary then [CH_r, CH_b] else [CH_r])]
    match r4.result with
    | .error e => some (r2.result, .error e)
    | .ok inp =>
      ((if binary then krk_file_read_b fuel r4.world [inp]
        else krk_file_read fuel r4.world [inp])).map (fun r => (r2.result, r.result))

/-- One way a handle gets released: an explicit `close()` call, or the
collector running the class hook (`_ongcsweep`). -/
inductive Release where
  | close
  | sweep
  deriving DecidableEq, Repr

/-- The receiver as the call left it. -/
def Ret.self (r : Ret) (old : KrkInstance KrkValue) : KrkInstance KrkValue :=
  match r.argv with
  | .INSTANCE inst :: _ => inst
  | _ => old

/-- Apply a sequence of releases to a file object. For every step the outcome
and the handle after it are kept. -/
def releaseFile : List Release → World → KrkInstance KrkValue →
    World × KrkInstance KrkValue × List (Except KrkError KrkValue × Option FILE)
  | [], w, self => (w, self, [])
  | .close :: ops, w, self =>
    let r := krk_file_close w [.INSTANCE self]
    let self1 := r.self self
    match releaseFile ops r.world self1 with
    | (w2, self2, outs) => (w2, self2, (r.result, self1.filePtr) :: outs)
  | .sweep :: ops, w, self =>
    match _file_sweep w self with
    | (w1, self1) =>
      match releaseFile ops w1 self1 with
      | (w2, self2, outs) => (w2, self2, (.ok .NONE, self1.filePtr) :: outs)

/-- Apply a sequence of releases to a directory object. -/
def releaseDir : List Release → World → KrkInstance KrkValue →
    World × KrkInstance KrkValue × List (Except KrkError KrkValue × Option DIR)
  | [], w, self => (w, self, [])
  | .close :: ops, w, self =>
    let r := Directory_close w [.INSTANCE self]
    let self1 := r.self self
    match releaseDir ops r.world self1 with
    | (w2, self2, outs) => (w2, self2, (r.result, self1.dirPtr) :: outs)
  | .sweep :: ops, w, self =>
    match _dir_sweep w self with
    | (w1, self1) =>
      match releaseDir ops w1 self1 with
      | (w2, self2, outs) => (w2, self2, (.ok .NONE, self1.dirPtr) :: outs)

/-- The scenario of a write after a read reached the end of the stream: open
`path` with `mode`, read everything, then write `payload` through the same
object. The outcome is the result of `read`, the result of `write`, and the
platform calls made by the `write` call alone. -/
def writeAfterReadAll (fuel : Nat) (w : World) (path mode payload : List Byte) :
    Option (Except KrkError KrkValue × Except KrkError KrkValue × List Call) :=
  let r1 := krk_open w [.STRING path, .STRING mode]
  match r1.result with
  | .error e => some (.error e, .error e, [])
  | .ok stream =>
    match krk_file_read fuel r1.world [stream] with
    | none => none
    | some r2 =>
      let r3 := krk_file_write r2.world (r2.argv.take 1 ++ [.STRING payload])
      some (r2.result, r3.result, r3.world.trace.take (r3.world.trace.length - r2.world.trace.length))

/-! ## String conversion of streams, standard streams, environment snapshot -/

/-- The bytes of a C string literal. -/
def cstr (s : String) : List Byte :=
  s.toList.map (fun c => Fin.ofNat c.toNat)

/-- The C `strlen`, on a string without interior NUL. -/
def strlen (s : List Byte) : Nat := s.length

/-- The C `strchr`: the offset of the first occurrence of `c`, or `NULL`. -/
def strchr : List Byte → Byte → Option Nat
  | [], _ => none
  | x :: xs, c => if x = c then some 0 else (strchr xs c).map (fun i => i + 1)

/-- Modelled from the spec: `krk_copyString` belongs to the host virtual machine
and is not part of the excerpt: the string value made of the first `length`
bytes at `chars` ("copied into a right-sized immutable value"). -/
def krk_copyString (chars : List Byte) (length : Nat) : List Byte :=
  chars.take length

/-- Modelled from the spec: `krk_attachNamedObject` belongs to the host virtual
machine and is not part of the excerpt: it sets the field of that name to the
object. -/
def krk_attachNamedObject (fields : List (String × KrkValue)) (name : String)
    (obj : KrkValue) : List (String × KrkValue) :=
  krk_tableSet fields name obj

/-- The C `krk_file_str`. `ptr` is the text `%p` produces for the address of
the object, which is implementation-defined. -/
def krk_file_str (ptr : List Byte) (w : World) (argv : List KrkValue) : Ret :=
  match argv with
  | .INSTANCE fileObj :: _ =>
    if !krk_isInstanceOf (.INSTANCE fileObj) .FileClass then
      krk_runtimeError w argv .typeError "argument must be File"
    else
      match krk_tableGet fileObj.fields "filename" with
      | some (.STRING filename) =>
        match krk_tableGet fileObj.fields "modestr" with
        | some (.STRING modestr) =>
          let tmp :=
            cstr "<" ++ (if fileObj.filePtr.isSome then cstr "open" else cstr "closed") ++
              cstr " file \x27" ++ filename ++ cstr "\x27, mode \x27" ++ modestr ++
              cstr "\x27 at " ++ ptr ++ cstr ">"
          ⟨w, argv, .ok (.STRING (krk_copyString tmp (strlen tmp)))⟩
        | _ => krk_runtimeError w argv .baseException "Corrupt File"
      | _ => krk_runtimeError w argv .baseException "Corrupt File"
  | _ => krk_runtimeError w argv .typeError "argument must be File"

/-- The C `makeFileInstance`: `moduleFields` is the field table of the module,
before and after. -/
def makeFileInstance (moduleFields : List (String × KrkValue)) (name : String) (file : FILE) :
    List (String × KrkValue) :=
  let fileObject := krk_newInstance .FileClass
  let filename := KrkValue.STRING (krk_copyString (cstr name) (strlen (cstr name)))
  let fileObject1 : KrkInstance KrkValue :=
    { fileObject with fields := krk_attachNamedValue fileObject.fields "filename" filename }
  let fileObject2 : KrkInstance KrkValue := { fileObject1 with filePtr := some file }
  krk_attachNamedObject moduleFields name (.INSTANCE fileObject2)

/-- Lines 505-508 of `krk_module_onload_fileio`: the instances for the three
standard streams, given the platform streams `stdin`, `stdout` and `stderr`.
The result is the field table of the module as far as these lines fill it; the
classes and the natives `open` and `opendir`, which the other lines attach, are
not represented. -/
def krk_module_onload_fileio (stdin stdout stderr : FILE) : List (String × KrkValue) :=
  let fields1 := makeFileInstance [] "stdin" stdin
  let fields2 := makeFileInstance fields1 "stdout" stdout
  makeFileInstance fields2 "stderr" stderr

/-- The `for (; *env; env++)` loop of `_loadEnviron` (lines 165-181): `dict` is
the table of the mapping object. -/
def _loadEnviron_loop : List (List Byte) → List (List Byte × KrkValue) →
    List (List Byte × KrkValue)
  | [], dict => dict
  | env :: more, dict =>
    match strchr env CH_eq with
    | none => _loadEnviron_loop more dict
    | some keyLen =>
      let len := strlen env
      let valLen := len - keyLen - 1
      let key := krk_copyString env keyLen
      let val := krk_copyString (env.drop (keyLen + 1)) valLen
      _loadEnviron_loop more (krk_tableSet dict key (.STRING val))

/-- The C `_loadEnviron`: the object attached to the module as `environ`. The
creation of the class `_Environ`, the binding of its two methods and the two
attachments to the module are bookkeeping of the host and are not
represented. The platform table `environ` is `w.environ`. -/
def _loadEnviron (w : World) : KrkInstance KrkValue :=
  let environObj : KrkInstance KrkValue :=
    { _class := .dictClass, fields := [], filePtr := none, dirPtr := none, dict := [] }
  let environObj1 : KrkInstance KrkValue := { environObj with _class := .environClass }
  match w.environ with
  | none => environObj1
  | some environ => { environObj1 with dict := _loadEnviron_loop environ environObj1.dict }

/-- The mapping the spec describes for an environment table: `K` is a key when
some entry contains `=` and `K` is the part before its first `=`; its value is
the part after the first `=` of the last such entry. -/
def environSnapshot (table : List (List Byte)) (K : List Byte) : Option (List Byte) :=
  let defining :=
    table.filter (fun e => e.contains CH_eq && decide (e.takeWhile (fun c => c ≠ CH_eq) = K))
  defining.getLast?.map (fun e => e.drop (K.length + 1))

/-- The label `krk_file_str` formats: `<STATUS file 'PATH', mode 'MODE' at PTR>`. -/
def fileLabel (status path mode ptr : List Byte) : List Byte :=
  cstr "<" ++ status ++ cstr " file \x27" ++ path ++ cstr "\x27, mode \x27" ++ mode ++
    cstr "\x27 at " ++ ptr ++ cstr ">"

/-! ## States of the growable buffer -/

theorem drop_eq_cons {α : Type} {l : List α} {n : Nat} {b : α} {t : List α}
    (h : l.drop n = b :: t) : l[n]? = some b ∧ l.drop (n + 1) = t := by
  constructor
  · have := congrArg (fun x => x[0]?) h
    simpa using this
  · have := congrArg (fun x => x.drop 1) h
    simpa using this

theorem drop_eq_nil_getElem? {α : Type} {l : List α} {n : Nat}
    (h : l.drop n = []) : l[n]? = none := by
  have := List.drop_eq_nil_iff.mp h
  simp [this]

theorem toChar_val (b : Byte) : toChar (b.val : Int) = b := by
  apply Fin.ext
  simp [toChar, Fin.ofNat, Nat.mod_eq_of_lt b.isLt]

theorem take_set_self {α : Type} (l : List α) (n : Nat) (c : α) :
    (l.set n c).take n = l.take n := by
  induction l generalizing n with
  | nil => simp
  | cons x xs ih => cases n <;> simp [ih]

theorem take_succ_set {α : Type} (l : List α) (n : Nat) (c : α) (h : n < l.length) :
    (l.set n c).take (n + 1) = l.take n ++ [c] := by
  rw [List.take_succ, take_set_self]
  simp [h]

theorem realloc_length (buffer : List Byte) (n : Nat) : (realloc buffer n).length = n := by
  simp [realloc]; omega

theorem realloc_take (buffer : List Byte) (n k : Nat) (hk : k ≤ buffer.length) (hn : k ≤ n) :
    (realloc buffer n).take k = buffer.take k := by
  simp [realloc, List.take_append_eq_append_take, List.take_take]
  have : k - min n buffer.length = 0 := by omega
  simp [this, Nat.min_eq_left hn]

theorem readline_while_run (seg : List Byte) : ∀ (rest : List Byte) (fuel : Nat) (s : ReadState),
    s.file.readable = true → s.buffer.length = s.spaceAvailable →
    s.sizeRead ≤ s.spaceAvailable →
    s.file.data.drop s.file.pos = seg ++ rest → NEWLINE ∉ seg →
    (rest = [] ∨ rest.head? = some NEWLINE) →
    seg.length < fuel →
    ∃ (s1 : ReadState) (flag : Bool) (k : Nat), readline_while fuel s = some (s1, flag) ∧
      s1.spaceAvailable = s.spaceAvailable ∧ s1.buffer.length = s.buffer.length ∧
      s1.sizeRead = s.sizeRead + k ∧
      s1.buffer.take s1.sizeRead = s.buffer.take s.sizeRead ++ (seg ++ rest).take k ∧
      s1.file = { s.file with pos := s.file.pos + k, eof := s1.file.eof } ∧
      ((flag = true ∧ k = seg.length + 1 ∧ rest.head? = some NEWLINE ∧
          s1.file.eof = s.file.eof) ∨
       (flag = false ∧ k = seg.length ∧ rest = [] ∧ s1.file.eof = true) ∨
       (flag = false ∧ k ≤ seg.length ∧ s1.sizeRead = s.spaceAvailable ∧
          s1.file.eof = s.file.eof)) := by
  induction seg with
  | nil =>
    intro rest fuel s hr hlen hle hdrop _ hrest hfuel
    obtain ⟨fuel, rfl⟩ : ∃ n, fuel = n + 1 := ⟨fuel - 1, by simp at hfuel; omega⟩
    simp only [List.nil_append] at hdrop
    by_cases hlt : s.sizeRead < s.spaceAvailable
    · rcases hrest with hnil | hnl
      · subst hnil
        have hget := drop_eq_nil_getElem? hdrop
        refine ⟨{ s with world := s.world.log (.fgetc s.file.fd),
                         file := { s.file with eof := true } }, false, 0, ?_, rfl, rfl, rfl,
                by simp, by simp, Or.inr (Or.inl ⟨rfl, rfl, rfl, rfl⟩)⟩
        simp [readline_while, hlt, fgetc, hr, hget]
      · obtain ⟨rest1, rfl⟩ : ∃ t, rest = NEWLINE :: t := by
          cases rest with
          | nil => simp at hnl
          | cons x t => simp at hnl; exact ⟨t, by rw [hnl]⟩
        obtain ⟨hget, _⟩ := drop_eq_cons hdrop
        refine ⟨{ s with world := s.world.log (.fgetc s.file.fd),
                         file := { s.file with pos := s.file.pos + 1 },
                         sizeRead := s.sizeRead + 1,
                         buffer := s.buffer.set s.sizeRead NEWLINE }, true, 1, ?_, rfl,
                by simp, rfl, ?_, by simp, Or.inl ⟨rfl, rfl, rfl, rfl⟩⟩
        · simp [readline_while, hlt, fgetc, hr, hget, toChar_val]
        · simp only [List.nil_append, List.take_succ_cons, List.take_zero]
          exact take_succ_set _ _ _ (by omega)
    · refine ⟨s, false, 0, ?_, rfl, rfl, rfl, by simp, by simp,
              Or.inr (Or.inr ⟨rfl, by simp, by omega, rfl⟩)⟩
      simp [readline_while, hlt]
  | cons b seg ih =>
    intro rest fuel s hr hlen hle hdrop hnl hrest hfuel
    obtain ⟨fuel, rfl⟩ : ∃ n, fuel = n + 1 := ⟨fuel - 1, by simp at hfuel; omega⟩
    by_cases hlt : s.sizeRead < s.spaceAvailable
    · obtain ⟨hget, hdrop1⟩ := drop_eq_cons (by simpa using hdrop)
      have hb : b ≠ NEWLINE := by
        intro h; apply hnl; simp [h]
      have hbv : ((b.val : Nat) : Int) ≠ ((NEWLINE.val : Nat) : Int) := by
        intro h; apply hb; apply Fin.ext; exact_mod_cast h
      let s1 : ReadState :=
        { s with world := s.world.log (.fgetc s.file.fd),
                 file := { s.file with pos := s.file.pos + 1 },
                 sizeRead := s.sizeRead + 1,
                 buffer := s.buffer.set s.sizeRead b }
      have hstep : readline_while (fuel + 1) s = readline_while fuel s1 := by
        simp [readline_while, hlt, fgetc, hr, hget, toChar_val, hbv, s1]
      obtain ⟨s2, flag, k, hrun, hsp, hbl, hsz, htake, hfile, hcase⟩ :=
        ih rest fuel s1 hr (by simp [s1, hlen]) (by simp [s1]; omega) hdrop1
          (by intro h; apply hnl; simp [h]) hrest (by simp at hfuel; omega)
      refine ⟨s2, flag, k + 1, by rw [hstep, hrun], by simp [hsp, s1], by simp [hbl, s1],
              by simp [hsz, s1]; omega, ?_, ?_, ?_⟩
      · rw [htake]
        simp only [s1, List.cons_append, List.take_succ_cons]
        rw [take_succ_set _ _ _ (by omega)]
        simp
      · rw [hfile]; simp [s1]; omega
      · rcases hcase with ⟨h1, h2, h3, h4⟩ | ⟨h1, h2, h3, h4⟩ | ⟨h1, h2, h3, h4⟩
        · exact Or.inl ⟨h1, by simp [h2], h3, by simpa [s1] using h4⟩
        · exact Or.inr (Or.inl ⟨h1, by simp [h2], h3, h4⟩)
        · exact Or.inr (Or.inr ⟨h1, by simp; omega, by simpa [s1] using h3, by simpa [s1] using h4⟩)
    · refine ⟨s, false, 0, ?_, rfl, rfl, rfl, by simp, by simp,
              Or.inr (Or.inr ⟨rfl, by simp, by omega, rfl⟩)⟩
      simp [readline_while, hlt]

theorem growBuffer_file (s : ReadState) : (growBuffer s).file = s.file := by
  unfold growBuffer; split <;> rfl

theorem growBuffer_sizeRead (s : ReadState) : (growBuffer s).sizeRead = s.sizeRead := by
  unfold growBuffer; split <;> rfl

theorem growBuffer_length (s : ReadState) (h : s.buffer.length = s.spaceAvailable) :
    (growBuffer s).buffer.length = (growBuffer s).spaceAvailable := by
  unfold growBuffer; split
  · exact realloc_length _ _
  · exact h

theorem growBuffer_room (s : ReadState) (h : s.sizeRead ≤ s.spaceAvailable) :
    s.sizeRead + BLOCK_SIZE ≤ (growBuffer s).spaceAvailable ∨
      (s.sizeRead < (growBuffer s).spaceAvailable ∧ s.spaceAvailable ≤ (growBuffer s).spaceAvailable) := by
  unfold growBuffer BLOCK_SIZE; split
  · right; dsimp only; split <;> omega
  · left; omega

theorem growBuffer_take (s : ReadState) (h : s.buffer.length = s.spaceAvailable)
    (hle : s.sizeRead ≤ s.spaceAvailable) :
    (growBuffer s).buffer.take s.sizeRead = s.buffer.take s.sizeRead := by
  unfold growBuffer BLOCK_SIZE; split
  · dsimp only
    apply realloc_take
    · omega
    · split <;> omega
  · rfl

theorem readline_do_run (n : Nat) : ∀ (seg rest : List Byte) (fuel : Nat) (s : ReadState),
    seg.length ≤ n →
    s.file.readable = true → s.file.eof = false → s.buffer.length = s.spaceAvailable →
    s.sizeRead ≤ s.spaceAvailable →
    s.file.data.drop s.file.pos = seg ++ rest → NEWLINE ∉ seg →
    (rest = [] ∨ rest.head? = some NEWLINE) →
    seg.length + 1 < fuel →
    ∃ (s1 : ReadState) (k : Nat), readline_do fuel s = some s1 ∧
      s1.sizeRead = s.sizeRead + k ∧
      s1.buffer.take s1.sizeRead = s.buffer.take s.sizeRead ++ (seg ++ rest).take k ∧
      s1.file = { s.file with pos := s.file.pos + k, eof := s1.file.eof } ∧
      ((k = seg.length + 1 ∧ rest.head? = some NEWLINE ∧ s1.file.eof = false) ∨
       (k = seg.length ∧ rest = [] ∧ s1.file.eof = true)) := by
  induction n with
  | zero =>
    intro seg rest fuel s hn hr heof hlen hle hdrop hnl hrest hfuel
    obtain ⟨fuel, rfl⟩ : ∃ m, fuel = m + 1 := ⟨fuel - 1, by omega⟩
    have hroom := growBuffer_room s hle
    obtain ⟨s1, flag, k, hrun, hsp, hbl, hsz, htake, hfile, hcase⟩ :=
      readline_while_run seg rest fuel (growBuffer s) (by rw [growBuffer_file]; exact hr)
        (growBuffer_length s hlen) (by rw [growBuffer_sizeRead]; unfold BLOCK_SIZE at hroom; omega)
        (by rw [growBuffer_file]; exact hdrop) hnl hrest (by omega)
    rw [growBuffer_sizeRead] at hsz
    rw [growBuffer_sizeRead, growBuffer_take s hlen hle] at htake
    rw [growBuffer_file] at hfile
    rcases hcase with ⟨h1, h2, h3, h4⟩ | ⟨h1, h2, h3, h4⟩ | ⟨h1, h2, h3, h4⟩
    · subst h1
      refine ⟨s1, k, by simp [readline_do, hrun], hsz, htake, hfile,
        Or.inl ⟨h2, h3, by rw [h4, growBuffer_file]; exact heof⟩⟩
    · subst h1
      refine ⟨s1, k, by simp [readline_do, hrun, feof, h4], hsz, htake, hfile,
        Or.inr ⟨h2, h3, h4⟩⟩
    · exfalso
      unfold BLOCK_SIZE at hroom
      omega
  | succ n ih =>
    intro seg rest fuel s hn hr heof hlen hle hdrop hnl hrest hfuel
    obtain ⟨fuel, rfl⟩ : ∃ m, fuel = m + 1 := ⟨fuel - 1, by omega⟩
    have hroom := growBuffer_room s hle
    obtain ⟨s1, flag, k, hrun, hsp, hbl, hsz, htake, hfile, hcase⟩ :=
      readline_while_run seg rest fuel (growBuffer s) (by rw [growBuffer_file]; exact hr)
        (growBuffer_length s hlen) (by rw [growBuffer_sizeRead]; unfold BLOCK_SIZE at hroom; omega)
        (by rw [growBuffer_file]; exact hdrop) hnl hrest (by omega)
    rw [growBuffer_sizeRead] at hsz
    rw [growBuffer_sizeRead, growBuffer_take s hlen hle] at htake
    rw [growBuffer_file] at hfile
    rcases hcase with ⟨h1, h2, h3, h4⟩ | ⟨h1, h2, h3, h4⟩ | ⟨h1, h2, h3, h4⟩
    · subst h1
      refine ⟨s1, k, by simp [readline_do, hrun], hsz, htake, hfile,
        Or.inl ⟨h2, h3, by rw [h4, growBuffer_file]; exact heof⟩⟩
    · subst h1
      refine ⟨s1, k, by simp [readline_do, hrun, feof, h4], hsz, htake, hfile,
        Or.inr ⟨h2, h3, h4⟩⟩
    · subst h1
      rw [growBuffer_file] at h4
      have hk : 0 < k := by unfold BLOCK_SIZE at hroom; omega
      have hs1eof : s1.file.eof = false := by rw [h4]; exact heof
      have hs1r : s1.file.readable = true := by rw [hfile]; exact hr
      have hdrop1 : s1.file.data.drop s1.file.pos = seg.drop k ++ rest := by
        rw [hfile]
        simp only
        rw [← List.drop_drop, hdrop, List.drop_append_of_le_length h2]
      obtain ⟨s2, k2, hrun2, hsz2, htake2, hfile2, hcase2⟩ :=
        ih (seg.drop k) rest fuel s1 (by simp; omega) hs1r hs1eof
          (by rw [hbl, hsp]; exact growBuffer_length s hlen) (by omega) hdrop1
          (fun h => hnl (List.mem_of_mem_drop h)) hrest (by simp; omega)
      refine ⟨s2, k + k2, ?_, by omega, ?_, ?_, ?_⟩
      · simp [readline_do, hrun, feof, hs1eof, hrun2]
      · rw [htake2, htake, List.append_assoc]
        congr 1
        rw [← List.drop_append_of_le_length h2, List.take_add]
      · rw [hfile2, hfile]; simp; omega
      · simp only [List.length_drop] at hcase2
        rcases hcase2 with ⟨c1, c2, c3⟩ | ⟨c1, c2, c3⟩
        · exact Or.inl ⟨by omega, c2, c3⟩
        · exact Or.inr ⟨by omega, c2, c3⟩

theorem readline_body_closed (mk : List Byte → KrkValue) (fuel : Nat) (w : World)
    (self : KrkInstance KrkValue) (rest : List KrkValue) (h : self.filePtr = none) :
    readline_body mk fuel w self rest = some ⟨w, .INSTANCE self :: rest, .ok .NONE⟩ := by
  simp [readline_body, h]

theorem readline_body_eof (mk : List Byte → KrkValue) (fuel : Nat) (w : World)
    (self : KrkInstance KrkValue) (args : List KrkValue) (f : FILE)
    (h : self.filePtr = some f) (heof : f.eof = true) :
    readline_body mk fuel w self args = some ⟨w, .INSTANCE self :: args, .ok .NONE⟩ := by
  simp [readline_body, h, feof, heof]

theorem readline_body_run (mk : List Byte → KrkValue) (fuel : Nat) (w : World)
    (self : KrkInstance KrkValue) (args : List KrkValue) (f : FILE)
    (seg rest : List Byte)
    (h : self.filePtr = some f) (hr : f.readable = true) (heof : f.eof = false)
    (hdrop : f.data.drop f.pos = seg ++ rest) (hnl : NEWLINE ∉ seg)
    (hrest : rest = [] ∨ rest.head? = some NEWLINE) (hfuel : seg.length + 1 < fuel) :
    ∃ (w1 : World) (k : Nat) (e : Bool),
      readline_body mk fuel w self args =
        some ⟨w1, .INSTANCE { self with filePtr := some { f with pos := f.pos + k, eof := e } } :: args,
              if k = 0 then .ok .NONE else .ok (mk ((seg ++ rest).take k))⟩ ∧
      ((k = seg.length + 1 ∧ rest.head? = some NEWLINE ∧ e = false) ∨
       (k = seg.length ∧ rest = [] ∧ e = true)) := by
  obtain ⟨s1, k, hrun, hsz, htake, hfile, hcase⟩ :=
    readline_do_run seg.length seg rest fuel ⟨w, f, [], 0, 0⟩ (le_refl _) hr heof rfl (le_refl _)
      hdrop hnl hrest hfuel
  simp only [List.take_nil, List.nil_append, Nat.zero_add] at hsz htake hfile
  refine ⟨s1.world, k, s1.file.eof, ?_, hcase⟩
  rw [hsz] at htake
  simp only [readline_body, h, feof, heof, hrun, hsz, htake, ← hfile]
  by_cases hk : k = 0 <;> simp [hk]

theorem callRepeatedly_succ (native : World → List KrkValue → Option Ret) (n : Nat)
    (w : World) (argv : List KrkValue) (r : Ret) (rs : List Ret)
    (h1 : native w argv = some r) (h2 : callRepeatedly native n r.world r.argv = some rs) :
    callRepeatedly native (n + 1) w argv = some (r :: rs) := by
  simp [callRepeatedly, h1, h2]

theorem callRepeatedly_one (native : World → List KrkValue → Option Ret)
    (w : World) (argv : List KrkValue) (r : Ret) (h1 : native w argv = some r) :
    callRepeatedly native 1 w argv = some [r] := by
  simp [callRepeatedly, h1]

theorem readline_pieces_core (mk : List Byte → KrkValue) (fuel : Nat)
    (native : World → List KrkValue → Option Ret) (self0 : KrkInstance KrkValue)
    (hnative : ∀ w f, native w [.INSTANCE { self0 with filePtr := some f }] =
      readline_body mk fuel w { self0 with filePtr := some f } [])
    (lines : List (List Byte)) : ∀ (tail : List Byte) (w : World) (f : FILE),
    f.readable = true → (f.eof = true → f.data.drop f.pos = []) →
    (∀ l ∈ lines, NEWLINE ∉ l) → NEWLINE ∉ tail →
    f.data.drop f.pos = (lines.map (fun l => l ++ [NEWLINE])).flatten ++ tail →
    f.data.length + 2 ≤ fuel →
    ∃ rets, callRepeatedly native ((linePieces lines tail).length + 1) w
        [.INSTANCE { self0 with filePtr := some f }] = some rets ∧
      rets.map (fun r => r.result) =
        (linePieces lines tail).map (fun p => Except.ok (mk p)) ++ [Except.ok KrkValue.NONE] ∧
      rets.map Ret.filePos =
        (endOffsets f.pos (linePieces lines tail) ++
          [f.pos + (linePieces lines tail).flatten.length]).map some := by
  induction lines with
  | nil =>
    intro tail w f hr hwf _ hnt hdrop hfuel
    simp only [List.map_nil, List.flatten_nil, List.nil_append] at hdrop
    by_cases ht : tail = []
    · subst ht
      by_cases heof : f.eof = true
      · refine ⟨[⟨w, [.INSTANCE { self0 with filePtr := some f }], .ok .NONE⟩], ?_, ?_, ?_⟩
        · apply callRepeatedly_one
          rw [hnative]; exact readline_body_eof _ _ _ _ _ f rfl heof
        · simp [linePieces]
        · simp [linePieces, Ret.filePos, endOffsets]
      · have heof : f.eof = false := by simpa using heof
        obtain ⟨w1, k, e, hrun, hcase⟩ := readline_body_run mk fuel w
          { self0 with filePtr := some f } [] f [] [] rfl hr heof hdrop (by simp) (Or.inl rfl)
          (by simp; omega)
        have hk : k = 0 := by rcases hcase with ⟨_, h, _⟩ | ⟨h, _, _⟩ <;> simp_all
        subst hk
        refine ⟨[?r1], ?h1_1, ?h2_1, ?h3_1⟩
        case h1_1 =>
          apply callRepeatedly_one
          rw [hnative]; exact hrun
        case h2_1 => simp [linePieces]
        case h3_1 => simp [linePieces, Ret.filePos, endOffsets]
    · have heof : f.eof = false := by
        cases h : f.eof with
        | false => rfl
        | true => exact absurd ((hwf h).symm.trans hdrop).symm ht
      obtain ⟨w1, k, e, hrun, hcase⟩ := readline_body_run mk fuel w
        { self0 with filePtr := some f } [] f tail [] rfl hr heof (by simpa using hdrop) hnt
        (Or.inl rfl) (by
          have : tail.length ≤ f.data.length := by
            have := congrArg List.length hdrop
            simp at this; omega
          omega)
      have hk : k = tail.length ∧ e = true := by
        rcases hcase with ⟨_, h, _⟩ | ⟨h, _, h3⟩
        · simp at h
        · exact ⟨h, h3⟩
      obtain ⟨hk, he⟩ := hk
      subst hk he
      have hk0 : tail.length ≠ 0 := by simpa using ht
      simp only [hk0, if_false, List.append_nil, List.take_length] at hrun
      refine ⟨[?r2, ⟨w1, [.INSTANCE { self0 with
          filePtr := some { f with pos := f.pos + tail.length, eof := true } }], .ok .NONE⟩],
          ?h1_2, ?h2_2, ?h3_2⟩
      case h1_2 =>
        simp only [linePieces, ht, if_false, List.map_nil, List.nil_append, List.length_singleton]
        refine callRepeatedly_succ _ _ _ _ _ _ ?_ ?_
        · rw [hnative]; exact hrun
        · apply callRepeatedly_one
          dsimp only
          rw [hnative]
          exact readline_body_eof _ _ _ _ _ _ rfl rfl
      case h2_2 => simp [linePieces, ht]
      case h3_2 => simp [linePieces, ht, Ret.filePos, endOffsets]
  | cons l ls ih =>
    intro tail w f hr hwf hls hnt hdrop hfuel
    simp only [List.map_cons, List.flatten_cons, List.append_assoc, List.singleton_append] at hdrop
    have heof : f.eof = false := by
      cases h : f.eof with
      | false => rfl
      | true => rw [hwf h] at hdrop; simp at hdrop
    have hlen : l.length + 1 ≤ f.data.length := by
      have := congrArg List.length hdrop
      simp at this; omega
    obtain ⟨w1, k, e, hrun, hcase⟩ := readline_body_run mk fuel w
      { self0 with filePtr := some f } [] f l
      (NEWLINE :: ((ls.map (fun l => l ++ [NEWLINE])).flatten ++ tail)) rfl hr heof hdrop
      (hls l (by simp)) (Or.inr rfl) (by omega)
    have hk : k = l.length + 1 ∧ e = false := by
      rcases hcase with ⟨h, _, h3⟩ | ⟨_, h, _⟩
      · exact ⟨h, h3⟩
      · simp at h
    obtain ⟨hk, he⟩ := hk
    subst hk he
    have htk : (l ++ NEWLINE :: ((ls.map (fun l => l ++ [NEWLINE])).flatten ++ tail)).take
        (l.length + 1) = l ++ [NEWLINE] := by
      rw [List.take_append_eq_append_take]
      simp
    simp only [Nat.add_one_ne_zero, if_false, htk] at hrun
    obtain ⟨rets, hrets, hres, hpos⟩ := ih tail w1
      { f with pos := f.pos + (l.length + 1), eof := false } hr (by simp)
      (fun x hx => hls x (by simp [hx])) hnt (by
        simp only
        rw [← List.drop_drop, hdrop]
        rw [List.drop_append_eq_append_drop]
        simp) hfuel
    refine ⟨?r3 :: rets, ?h1_3, ?h2_3, ?h3_3⟩
    case h1_3 =>
      have : (linePieces (l :: ls) tail).length + 1 = ((linePieces ls tail).length + 1) + 1 := by
        simp [linePieces]
      rw [this]
      refine callRepeatedly_succ _ _ _ _ _ _ ?_ ?_
      · rw [hnative]; exact hrun
      · exact hrets
    case h2_3 => simp [hres, linePieces]
    case h3_3 =>
      simp only [List.map_cons, hpos]
      simp [linePieces, Ret.filePos, endOffsets]
      omega

/-- Line reads on a stream that is open for reading: on an open FileStream
(resp. BinaryStream) whose stream is readable, whose end-of-file indicator is
set only at the end of the data and whose remaining content is the lines
`lines`, each followed by a newline, and then a segment `tail` without newline
(possibly empty), `pieces + 1` successive `readLine()` calls all return (with
any fuel of at least the data length plus two): the results are exactly the
pieces in order (every line with its newline, then the non-empty tail as is)
followed by the none value, and after each call the file position is the end
of the piece just returned, so no further byte is consumed. -/
theorem readLine_returns_the_pieces_in_order (w : World) (self : KrkInstance KrkValue)
    (f : FILE) (lines : List (List Byte)) (tail : List Byte) (fuel : Nat)
    (hopen : self.filePtr = some f) (hread : f.readable = true)
    (hind : f.eof = true → f.data.drop f.pos = [])
    (hlines : ∀ l ∈ lines, NEWLINE ∉ l) (htail : NEWLINE ∉ tail)
    (hcontent : f.data.drop f.pos = (lines.map (fun l => l ++ [NEWLINE])).flatten ++ tail)
    (hfuel : f.data.length + 2 ≤ fuel) :
    (self._class = .FileClass →
      ∃ rets, callRepeatedly (krk_file_readline fuel) ((linePieces lines tail).length + 1) w
          [.INSTANCE self] = some rets ∧
        rets.map (fun r => r.result) =
          (linePieces lines tail).map (fun p => Except.ok (KrkValue.STRING p)) ++
            [Except.ok KrkValue.NONE] ∧
        rets.map Ret.filePos =
          (endOffsets f.pos (linePieces lines tail) ++
            [f.pos + (linePieces lines tail).flatten.length]).map some) ∧
    (self._class = .BinaryFileClass →
      ∃ rets, callRepeatedly (krk_file_readline_b fuel) ((linePieces lines tail).length + 1) w
          [.INSTANCE self] = some rets ∧
        rets.map (fun r => r.result) =
          (linePieces lines tail).map (fun p => Except.ok (KrkValue.BYTES p)) ++
            [Except.ok KrkValue.NONE] ∧
        rets.map Ret.filePos =
          (endOffsets f.pos (linePieces lines tail) ++
            [f.pos + (linePieces lines tail).flatten.length]).map some) := by
  have hself : self = { self with filePtr := some f } := by
    cases self; simp_all
  constructor
  · intro hcls
    rw [hself]
    exact readline_pieces_core .STRING fuel (krk_file_readline fuel) self
      (fun w1 f1 => by simp [krk_file_readline, hcls, isSubclassOf, krk_isInstanceOf]) lines tail w f hread hind
      hlines htail hcontent hfuel
  · intro hcls
    rw [hself]
    exact readline_pieces_core .BYTES fuel (krk_file_readline_b fuel) self
      (fun w1 f1 => by simp [krk_file_readline_b, hcls, isSubclassOf, krk_isInstanceOf]) lines tail w f hread hind
      hlines htail hcontent hfuel

/-- Line reads at a concrete readable stream: the content `5 \n 6` read from the
start gives `5 \n`, then `6`, then the none value. -/
theorem readLine_returns_the_pieces_in_order_witness :
    ∃ rets, callRepeatedly (krk_file_readline 5) 3 ⟨[], [], none, false, 4, []⟩
        [.INSTANCE ⟨.FileClass, [], some ⟨3, [1], [5, 10, 6], 0, true, false, false, false, false⟩,
          none, []⟩] = some rets ∧
      rets.map (fun r => r.result) =
        [Except.ok (KrkValue.STRING [5, 10]), Except.ok (KrkValue.STRING [6]),
          Except.ok KrkValue.NONE] ∧
      rets.map Ret.filePos = [some 2, some 3, some 3] :=
  (readLine_returns_the_pieces_in_order ⟨[], [], none, false, 4, []⟩
    ⟨.FileClass, [], some ⟨3, [1], [5, 10, 6], 0, true, false, false, false, false⟩, none, []⟩
    ⟨3, [1], [5, 10, 6], 0, true, false, false, false, false⟩ [[5]] [6] 5 rfl rfl
    (by decide) (by decide) (by decide) (by decide) (by decide)).1 rfl

/-! ## Bulk reads and the write / read-back round trip -/

theorem poke_length (buffer : List Byte) (off : Nat) (bytes : List Byte) :
    (poke buffer off bytes).length = buffer.length := by
  simp only [poke, List.length_take, List.length_append, List.length_drop]
  omega

theorem poke_take (buffer : List Byte) (off : Nat) (bytes : List Byte)
    (h : off + bytes.length ≤ buffer.length) :
    (poke buffer off bytes).take (off + bytes.length) = buffer.take off ++ bytes := by
  have h1 : (buffer.take off ++ bytes).length = off + bytes.length := by
    rw [List.length_append, List.length_take]; omega
  simp only [poke, List.take_take, Nat.min_eq_left h]
  exact List.take_left' h1

theorem growBuffer_capacity (s : ReadState) (hle : s.sizeRead ≤ s.spaceAvailable)
    (hcap : s.spaceAvailable = 0 ∨ BLOCK_SIZE ≤ s.spaceAvailable) :
    s.sizeRead + BLOCK_SIZE ≤ (growBuffer s).spaceAvailable ∧
      BLOCK_SIZE ≤ (growBuffer s).spaceAvailable := by
  unfold growBuffer BLOCK_SIZE at *
  split
  · dsimp only; split <;> omega
  · omega

theorem read_do_short (fuel : Nat) (s : ReadState)
    (hr : s.file.readable = true) (herr : s.file.err = false)
    (hlen : s.buffer.length = s.spaceAvailable)
    (hle : s.sizeRead ≤ s.spaceAvailable)
    (hcap : s.spaceAvailable = 0 ∨ BLOCK_SIZE ≤ s.spaceAvailable)
    (hshort : (s.file.data.drop s.file.pos).length < BLOCK_SIZE) :
    ∃ (s1 : ReadState), read_do (fuel + 1) s = some (s1, false) ∧
      s1.sizeRead = s.sizeRead + (s.file.data.drop s.file.pos).length ∧
      s1.buffer.take s1.sizeRead = s.buffer.take s.sizeRead ++ s.file.data.drop s.file.pos ∧
      s1.file = { s.file with pos := s.file.pos + (s.file.data.drop s.file.pos).length,
                              eof := true } := by
  obtain ⟨hroom, hcap1⟩ := growBuffer_capacity s hle hcap
  have hglen := growBuffer_length s hlen
  have htk : (s.file.data.drop s.file.pos).take BLOCK_SIZE = s.file.data.drop s.file.pos :=
    List.take_of_length_le (by omega)
  refine ⟨{ world := (growBuffer s).world.log (.fread s.file.fd BLOCK_SIZE),
            file := { s.file with pos := s.file.pos + (s.file.data.drop s.file.pos).length,
                                  eof := true },
            buffer := poke (growBuffer s).buffer s.sizeRead (s.file.data.drop s.file.pos),
            sizeRead := s.sizeRead + (s.file.data.drop s.file.pos).length,
            spaceAvailable := (growBuffer s).spaceAvailable }, ?_, rfl, ?_, rfl⟩
  · simp only [read_do, fread, growBuffer_file, hr, htk, Bool.not_true, Bool.false_eq_true,
      if_false, ferror, feof, growBuffer_sizeRead]
    have hshort2 : s.file.data.length - s.file.pos < BLOCK_SIZE := by simpa using hshort
    simp [hshort2, herr, Nat.not_le.mpr hshort2]
  · dsimp only
    rw [poke_take _ _ _ (by rw [hglen]; omega), growBuffer_take s hlen hle]

theorem read_do_run (n : Nat) : ∀ (fuel : Nat) (s : ReadState),
    (s.file.data.drop s.file.pos).length ≤ n →
    s.file.readable = true → s.file.eof = false → s.file.err = false →
    s.buffer.length = s.spaceAvailable → s.sizeRead ≤ s.spaceAvailable →
    (s.spaceAvailable = 0 ∨ BLOCK_SIZE ≤ s.spaceAvailable) →
    (s.file.data.drop s.file.pos).length < fuel →
    ∃ (s1 : ReadState), read_do fuel s = some (s1, false) ∧
      s1.sizeRead = s.sizeRead + (s.file.data.drop s.file.pos).length ∧
      s1.buffer.take s1.sizeRead = s.buffer.take s.sizeRead ++ s.file.data.drop s.file.pos ∧
      s1.file = { s.file with pos := s.file.pos + (s.file.data.drop s.file.pos).length,
                              eof := true } := by
  induction n with
  | zero =>
    intro fuel s hn hr heof herr hlen hle hcap hfuel
    obtain ⟨fuel, rfl⟩ : ∃ m, fuel = m + 1 := ⟨fuel - 1, by omega⟩
    exact read_do_short fuel s hr herr hlen hle hcap (by unfold BLOCK_SIZE; omega)
  | succ n ih =>
    intro fuel s hn hr heof herr hlen hle hcap hfuel
    obtain ⟨fuel, rfl⟩ : ∃ m, fuel = m + 1 := ⟨fuel - 1, by omega⟩
    obtain ⟨hroom, hcap1⟩ := growBuffer_capacity s hle hcap
    have hglen := growBuffer_length s hlen
    by_cases hshort : (s.file.data.drop s.file.pos).length < BLOCK_SIZE
    · exact read_do_short fuel s hr herr hlen hle hcap hshort
    · have hfull : ((s.file.data.drop s.file.pos).take BLOCK_SIZE).length = BLOCK_SIZE := by
        rw [List.length_take]; omega
      let s3 : ReadState :=
        { world := (growBuffer s).world.log (.fread s.file.fd BLOCK_SIZE),
          file := { s.file with pos := s.file.pos + BLOCK_SIZE },
          buffer := poke (growBuffer s).buffer s.sizeRead
            ((s.file.data.drop s.file.pos).take BLOCK_SIZE),
          sizeRead := s.sizeRead + BLOCK_SIZE,
          spaceAvailable := (growBuffer s).spaceAvailable }
      have hstep : read_do (fuel + 1) s = read_do fuel s3 := by
        simp only [read_do, fread, growBuffer_file, hr, Bool.not_true, Bool.false_eq_true,
          if_false, ferror, feof, hfull, heof, growBuffer_sizeRead]
        simp [s3, hr, heof]
      have hd3 : s3.file.data.drop s3.file.pos =
          (s.file.data.drop s.file.pos).drop BLOCK_SIZE := by
        simp [s3, List.drop_drop, Nat.add_comm]
      have hl3 : (s3.file.data.drop s3.file.pos).length =
          (s.file.data.drop s.file.pos).length - BLOCK_SIZE := by
        rw [hd3, List.length_drop]
      obtain ⟨s4, hrun, hsz, htake, hfile⟩ := ih fuel s3 (by rw [hl3]; unfold BLOCK_SIZE at *; omega)
        hr heof herr (by simp [s3, poke_length, hglen]) (by simp [s3]; omega) (Or.inr hcap1)
        (by rw [hl3]; unfold BLOCK_SIZE at *; omega)
      refine ⟨s4, by rw [hstep, hrun], ?_, ?_, ?_⟩
      · rw [hsz, hl3]; simp only [s3]; omega
      · rw [htake, hd3]
        simp only [s3]
        rw [show s.sizeRead + BLOCK_SIZE =
          s.sizeRead + ((s.file.data.drop s.file.pos).take BLOCK_SIZE).length from by rw [hfull]]
        rw [poke_take _ _ _ (by rw [hglen, hfull]; omega), growBuffer_take s hlen hle]
        rw [List.append_assoc, List.take_append_drop]
      · rw [hfile, hl3]
        have hp : s3.file.pos + ((s.file.data.drop s.file.pos).length - BLOCK_SIZE) =
            s.file.pos + (s.file.data.drop s.file.pos).length := by
          simp only [s3]; omega
        rw [hp]

theorem lookupFile_storeFile (files : List (List Byte × List Byte)) (path d : List Byte) :
    lookupFile (storeFile files path d) path = some d := by
  induction files with
  | nil => simp [storeFile, lookupFile]
  | cons x xs ih =>
    obtain ⟨p, d0⟩ := x
    by_cases h : p = path
    · simp [storeFile, lookupFile, h]
    · simp [storeFile, lookupFile, h, ih]

theorem storeFile_storeFile (files : List (List Byte × List Byte)) (path d1 d2 : List Byte) :
    storeFile (storeFile files path d1) path d2 = storeFile files path d2 := by
  induction files with
  | nil => simp [storeFile]
  | cons x xs ih =>
    obtain ⟨p, d0⟩ := x
    by_cases h : p = path
    · simp [storeFile, h]
    · simp [storeFile, h, ih]

theorem read_body_all (mk : List Byte → KrkValue) (fuel : Nat) (w : World)
    (self : KrkInstance KrkValue) (args : List KrkValue) (f : FILE)
    (h : self.filePtr = some f) (hr : f.readable = true) (heof : f.eof = false)
    (herr : f.err = false) (hfuel : (f.data.drop f.pos).length < fuel) :
    ∃ w1, read_body mk fuel w self args =
      some ⟨w1, .INSTANCE { self with filePtr := some { f with
              pos := f.pos + (f.data.drop f.pos).length, eof := true } } :: args,
            .ok (mk (f.data.drop f.pos))⟩ := by
  obtain ⟨s1, hrun, hsz, htake, hfile⟩ :=
    read_do_run _ fuel ⟨w, f, [], 0, 0⟩ (le_refl _) hr heof herr rfl (le_refl _) (Or.inl rfl) hfuel
  simp only [List.take_nil, List.nil_append, Nat.zero_add] at hsz htake hfile
  refine ⟨s1.world, ?_⟩
  simp only [readline_body, read_body, h, feof, heof, hrun, htake, ← hfile]
  simp

theorem krk_open_w (w : World) (path : List Byte) :
    krk_open w [.STRING path, .STRING [CH_w]] =
      ⟨⟨storeFile w.files path [], w.dirs, w.environ, w.nomem, w.nextFd + 1,
          .fopen path [CH_w] :: w.trace⟩,
       [.STRING path, .STRING [CH_w]],
       .ok (.INSTANCE ⟨.FileClass,
          [("filename", .STRING path), ("modestr", .STRING [CH_w])],
          some ⟨w.nextFd, path, [], 0, false, true, false, false, false⟩, none, []⟩)⟩ := by
  rfl

theorem krk_open_wb (w : World) (path : List Byte) :
    krk_open w [.STRING path, .STRING [CH_w, CH_b]] =
      ⟨⟨storeFile w.files path [], w.dirs, w.environ, w.nomem, w.nextFd + 1,
          .fopen path [CH_w] :: w.trace⟩,
       [.STRING path, .STRING [CH_w, CH_b]],
       .ok (.INSTANCE ⟨.BinaryFileClass,
          [("filename", .STRING path), ("modestr", .STRING [CH_w, CH_b])],
          some ⟨w.nextFd, path, [], 0, false, true, false, false, false⟩, none, []⟩)⟩ := by
  rfl

theorem krk_open_r (w : World) (path d : List Byte) (h : lookupFile w.files path = some d) :
    krk_open w [.STRING path, .STRING [CH_r]] =
      ⟨⟨w.files, w.dirs, w.environ, w.nomem, w.nextFd + 1, .fopen path [CH_r] :: w.trace⟩,
       [.STRING path, .STRING [CH_r]],
       .ok (.INSTANCE ⟨.FileClass,
          [("filename", .STRING path), ("modestr", .STRING [CH_r])],
          some ⟨w.nextFd, path, d, 0, true, false, false, false, false⟩, none, []⟩)⟩ := by
  have : krk_open w [.STRING path, .STRING [CH_r]] =
      krk_open_build w [.STRING path, .STRING [CH_r]] path [CH_r] [CH_r] false := rfl
  rw [this]
  simp [krk_open_build, fopen, h, World.log, krk_newInstance, krk_attachNamedValue, krk_tableSet]

theorem krk_open_rb (w : World) (path d : List Byte) (h : lookupFile w.files path = some d) :
    krk_open w [.STRING path, .STRING [CH_r, CH_b]] =
      ⟨⟨w.files, w.dirs, w.environ, w.nomem, w.nextFd + 1, .fopen path [CH_r] :: w.trace⟩,
       [.STRING path, .STRING [CH_r, CH_b]],
       .ok (.INSTANCE ⟨.BinaryFileClass,
          [("filename", .STRING path), ("modestr", .STRING [CH_r, CH_b])],
          some ⟨w.nextFd, path, d, 0, true, false, false, false, false⟩, none, []⟩)⟩ := by
  have : krk_open w [.STRING path, .STRING [CH_r, CH_b]] =
      krk_open_build w [.STRING path, .STRING [CH_r, CH_b]] path [CH_r, CH_b] [CH_r] true := rfl
  rw [this]
  simp [krk_open_build, fopen, h, World.log, krk_newInstance, krk_attachNamedValue, krk_tableSet]

theorem writeThenReadAll_text (fuel : Nat) (w : World) (path payload : List Byte)
    (hfuel : payload.length < fuel) :
    writeThenReadAll false fuel w path payload =
      some (.ok (.INTEGER payload.length), .ok (.STRING payload)) := by
  obtain ⟨w1, h⟩ := read_body_all .STRING fuel
    ⟨storeFile (storeFile w.files path []) path payload, w.dirs, w.environ, w.nomem,
      w.nextFd + 1 + 1, .fopen path [CH_r] :: .fclose w.nextFd ::
        .fwrite w.nextFd payload :: .fopen path [CH_w] :: w.trace⟩
    ⟨.FileClass, [("filename", .STRING path), ("modestr", .STRING [CH_r])],
      some ⟨w.nextFd + 1, path, payload, 0, true, false, false, false, false⟩, none, []⟩ []
    ⟨w.nextFd + 1, path, payload, 0, true, false, false, false, false⟩ rfl rfl rfl rfl
    (by simpa using hfuel)
  simp only [writeThenReadAll, Bool.false_eq_true, if_false, krk_open_w]
  simp only [krk_file_write, isSubclassOf, write_body, feof, fwrite, World.log, krk_file_close,
    fclose, List.take, decide_True, Bool.not_true, Bool.true_or, Bool.false_eq_true, if_false,
    if_true, krk_isInstanceOf]
  rw [krk_open_r _ _ payload (by simp [lookupFile_storeFile])]
  simp only [krk_file_read, isSubclassOf, decide_True, Bool.not_true, Bool.true_or,
    Bool.false_eq_true, if_false, krk_isInstanceOf]
  simp at h ⊢
  simp [h]

theorem writeThenReadAll_binary (fuel : Nat) (w : World) (path payload : List Byte)
    (hfuel : payload.length < fuel) :
    writeThenReadAll true fuel w path payload =
      some (.ok (.INTEGER payload.length), .ok (.BYTES payload)) := by
  obtain ⟨w1, h⟩ := read_body_all .BYTES fuel
    ⟨storeFile (storeFile w.files path []) path payload, w.dirs, w.environ, w.nomem,
      w.nextFd + 1 + 1, .fopen path [CH_r] :: .fclose w.nextFd ::
        .fwrite w.nextFd payload :: .fopen path [CH_w] :: w.trace⟩
    ⟨.BinaryFileClass, [("filename", .STRING path), ("modestr", .STRING [CH_r, CH_b])],
      some ⟨w.nextFd + 1, path, payload, 0, true, false, false, false, false⟩, none, []⟩ []
    ⟨w.nextFd + 1, path, payload, 0, true, false, false, false, false⟩ rfl rfl rfl rfl
    (by simpa using hfuel)
  simp only [writeThenReadAll, if_true, krk_open_wb]
  simp only [krk_file_write_b, isSubclassOf, write_body, feof, fwrite, World.log, krk_file_close,
    fclose, List.take, decide_True, Bool.not_true, Bool.true_or, Bool.false_eq_true, if_false,
    if_true, KrkClass.base, krk_isInstanceOf]
  rw [krk_open_rb _ _ payload (by simp [lookupFile_storeFile])]
  simp only [krk_file_read_b, isSubclassOf, decide_True, Bool.not_true, Bool.true_or,
    Bool.false_eq_true, if_false, krk_isInstanceOf]
  simp at h ⊢
  simp [h]

/-- C2: for every payload (of any length, zero and more than one 1024-byte
chunk included), opening a path for writing in text mode (`w`) or binary mode
(`wb`), writing the payload, closing, reopening for reading in the same kind
(`r` or `rb`) and reading everything returns exactly the payload, as a string
for the text stream and as bytes for the binary stream; the write reports the
payload length, and the read returns with any fuel above that length. -/
theorem write_then_readAll_returns_payload (fuel : Nat) (w : World) (path payload : List Byte)
    (hfuel : payload.length < fuel) :
    writeThenReadAll false fuel w path payload =
        some (.ok (.INTEGER payload.length), .ok (.STRING payload)) ∧
      writeThenReadAll true fuel w path payload =
        some (.ok (.INTEGER payload.length), .ok (.BYTES payload)) :=
  ⟨writeThenReadAll_text fuel w path payload hfuel,
   writeThenReadAll_binary fuel w path payload hfuel⟩

/-- C2 at concrete payloads: three bytes, with a newline in the middle. -/
theorem write_then_readAll_returns_payload_witness :
    writeThenReadAll false 4 ⟨[], [], none, false, 3, []⟩ [47, 120] [104, 10, 105] =
        some (.ok (.INTEGER 3), .ok (.STRING [104, 10, 105])) ∧
      writeThenReadAll true 4 ⟨[], [], none, false, 3, []⟩ [47, 120] [104, 10, 105] =
        some (.ok (.INTEGER 3), .ok (.BYTES [104, 10, 105])) :=
  write_then_readAll_returns_payload 4 ⟨[], [], none, false, 3, []⟩ [47, 120] [104, 10, 105]
    (by decide)

/-! ## Release of the native handle -/

theorem releaseFile_closed (ops : List Release) : ∀ (w : World) (self : KrkInstance KrkValue),
    isSubclassOf self._class .FileClass = true → self.filePtr = none →
    releaseFile ops w self = (w, self, ops.map (fun _ => (Except.ok KrkValue.NONE, none))) := by
  induction ops with
  | nil => intro w self _ _; rfl
  | cons op ops ih =>
    intro w self hcls hnull
    cases op with
    | close =>
      have h1 : krk_file_close w [.INSTANCE self] = ⟨w, [.INSTANCE self], .ok .NONE⟩ := by
        simp [krk_file_close, hcls, hnull, krk_isInstanceOf]
      simp [releaseFile, h1, Ret.self, ih w self hcls hnull, hnull]
    | sweep =>
      have h1 : _file_sweep w self = (w, self) := by simp [_file_sweep, hnull]
      simp [releaseFile, h1, ih w self hcls hnull, hnull]

theorem releaseDir_closed (ops : List Release) : ∀ (w : World) (self : KrkInstance KrkValue),
    isSubclassOf self._class .Directory = true → self.dirPtr = none →
    releaseDir ops w self = (w, self, ops.map (fun _ => (Except.ok KrkValue.NONE, none))) := by
  induction ops with
  | nil => intro w self _ _; rfl
  | cons op ops ih =>
    intro w self hcls hnull
    cases op with
    | close =>
      have h1 : Directory_close w [.INSTANCE self] = ⟨w, [.INSTANCE self], .ok .NONE⟩ := by
        simp [Directory_close, hcls, hnull, krk_isInstanceOf]
      simp [releaseDir, h1, Ret.self, ih w self hcls hnull, hnull]
    | sweep =>
      have h1 : _dir_sweep w self = (w, self) := by simp [_dir_sweep, hnull]
      simp [releaseDir, h1, ih w self hcls hnull, hnull]

/-- C3: take a file object (FileStream or BinaryStream) or a directory object
whose handle is open, and any finite sequence of explicit `close()` calls and
collector finalizer runs. Every call returns the none value without raising;
the handle is null after the first call and after every later one; and the
platform calls made by the whole sequence are exactly one `fclose` (resp.
`closedir`) of that handle when the sequence is non-empty, and none when it is
empty. -/
theorem release_exactly_once (ops : List Release) (w : World) (self : KrkInstance KrkValue) :
    (∀ f : FILE, isSubclassOf self._class .FileClass = true → self.filePtr = some f →
      (releaseFile ops w self).2.2 = ops.map (fun _ => (Except.ok KrkValue.NONE, none)) ∧
      (releaseFile ops w self).1.trace =
        (if ops = [] then [] else [Call.fclose f.fd]) ++ w.trace ∧
      (releaseFile ops w self).2.1.filePtr = (if ops = [] then some f else none)) ∧
    (∀ d : DIR, isSubclassOf self._class .Directory = true → self.dirPtr = some d →
      (releaseDir ops w self).2.2 = ops.map (fun _ => (Except.ok KrkValue.NONE, none)) ∧
      (releaseDir ops w self).1.trace =
        (if ops = [] then [] else [Call.closedir d.fd]) ++ w.trace ∧
      (releaseDir ops w self).2.1.dirPtr = (if ops = [] then some d else none)) := by
  constructor
  · intro f hcls hopen
    cases ops with
    | nil => simp [releaseFile, hopen]
    | cons op ops =>
      have hc : isSubclassOf ({ self with filePtr := none } : KrkInstance KrkValue)._class
          .FileClass = true := hcls
      cases op with
      | close =>
        have h1 : krk_file_close w [.INSTANCE self] =
            ⟨fclose w f, [.INSTANCE { self with filePtr := none }], .ok .NONE⟩ := by
          simp [krk_file_close, hcls, hopen, krk_isInstanceOf]
        simp only [releaseFile, h1, Ret.self, releaseFile_closed ops _ _ hc rfl]
        refine ⟨by simp, ?_, by simp⟩
        simp only [fclose, World.log]
        split <;> simp
      | sweep =>
        have h1 : _file_sweep w self = (fclose w f, { self with filePtr := none }) := by
          simp [_file_sweep, hopen]
        simp only [releaseFile, h1, releaseFile_closed ops _ _ hc rfl]
        refine ⟨by simp, ?_, by simp⟩
        simp only [fclose, World.log]
        split <;> simp
  · intro d hcls hopen
    cases ops with
    | nil => simp [releaseDir, hopen]
    | cons op ops =>
      have hc : isSubclassOf ({ self with dirPtr := none } : KrkInstance KrkValue)._class
          .Directory = true := hcls
      cases op with
      | close =>
        have h1 : Directory_close w [.INSTANCE self] =
            ⟨closedir w d, [.INSTANCE { self with dirPtr := none }], .ok .NONE⟩ := by
          simp [Directory_close, hcls, hopen, krk_isInstanceOf]
        simp only [releaseDir, h1, Ret.self, releaseDir_closed ops _ _ hc rfl]
        refine ⟨by simp, ?_, by simp⟩
        simp [closedir, World.log]
      | sweep =>
        have h1 : _dir_sweep w self = (closedir w d, { self with dirPtr := none }) := by
          simp [_dir_sweep, hopen]
        simp only [releaseDir, h1, releaseDir_closed ops _ _ hc rfl]
        refine ⟨by simp, ?_, by simp⟩
        simp [closedir, World.log]

/-- C3 at a concrete sequence: close, finalizer, close on an open file, and
finalizer, close on an open directory. -/
theorem release_exactly_once_witness :
    ((releaseFile [.close, .sweep, .close] ⟨[], [], none, false, 4, []⟩
        ⟨.FileClass, [], some ⟨3, [47], [], 0, true, false, false, false, false⟩, none, []⟩).2.2 =
        [(Except.ok KrkValue.NONE, none), (Except.ok KrkValue.NONE, none),
          (Except.ok KrkValue.NONE, none)] ∧
      (releaseFile [.close, .sweep, .close] ⟨[], [], none, false, 4, []⟩
        ⟨.FileClass, [], some ⟨3, [47], [], 0, true, false, false, false, false⟩, none, []⟩).1.trace =
        [Call.fclose 3] ∧
      (releaseFile [.close, .sweep, .close] ⟨[], [], none, false, 4, []⟩
        ⟨.FileClass, [], some ⟨3, [47], [], 0, true, false, false, false, false⟩, none,
          []⟩).2.1.filePtr = none) ∧
    ((releaseDir [.sweep, .close] ⟨[], [], none, false, 4, []⟩
        ⟨.Directory, [], none, some ⟨3, []⟩, []⟩).2.2 =
        [(Except.ok KrkValue.NONE, none), (Except.ok KrkValue.NONE, none)] ∧
      (releaseDir [.sweep, .close] ⟨[], [], none, false, 4, []⟩
        ⟨.Directory, [], none, some ⟨3, []⟩, []⟩).1.trace = [Call.closedir 3] ∧
      (releaseDir [.sweep, .close] ⟨[], [], none, false, 4, []⟩
        ⟨.Directory, [], none, some ⟨3, []⟩, []⟩).2.1.dirPtr = none) :=
  ⟨(release_exactly_once [.close, .sweep, .close] ⟨[], [], none, false, 4, []⟩
      ⟨.FileClass, [], some ⟨3, [47], [], 0, true, false, false, false, false⟩, none, []⟩).1
      ⟨3, [47], [], 0, true, false, false, false, false⟩ rfl rfl,
   (release_exactly_once [.sweep, .close] ⟨[], [], none, false, 4, []⟩
      ⟨.Directory, [], none, some ⟨3, []⟩, []⟩).2 ⟨3, []⟩ rfl rfl⟩

/-! ## The mode string of `open` -/

theorem fopen_trace (w : World) (path mode : List Byte) :
    (fopen w path mode).1.trace = Call.fopen path mode :: w.trace := by
  unfold fopen
  cases mode with
  | nil => rfl
  | cons c rest =>
    dsimp only
    split
    · split <;> rfl
    · split
      · rfl
      · split <;> rfl

theorem krk_open_build_world (w : World) (argv : List KrkValue) (filename arg top : List Byte)
    (isBinary : Bool) :
    (krk_open_build w argv filename arg top isBinary).world = (fopen w filename top).1 := by
  unfold krk_open_build
  split <;> simp_all [krk_runtimeError]

theorem krk_open_build_result (w : World) (argv : List KrkValue) (filename arg top : List Byte)
    (isBinary : Bool) :
    (krk_open_build w argv filename arg top isBinary).result =
      match (fopen w filename top).2 with
      | none => .error ⟨.ioError, "open: failed to open file; system returned: %s"⟩
      | some file => .ok (.INSTANCE
          { _class := if isBinary then .BinaryFileClass else .FileClass,
            fields := [("filename", .STRING filename), ("modestr", .STRING arg)],
            filePtr := some file, dirPtr := none, dict := [] }) := by
  unfold krk_open_build
  split <;> simp_all [krk_runtimeError, krk_newInstance, krk_attachNamedValue, krk_tableSet]

theorem any_range_iff (mode : List Byte) :
    (List.range (mode.length - 1)).any (fun i => decide (mode[i]? = some CH_b)) = true ↔
      ∃ i, i + 1 < mode.length ∧ mode[i]? = some CH_b := by
  simp only [List.any_eq_true, List.mem_range, decide_eq_true_eq]
  constructor
  · rintro ⟨i, hi, h⟩; exact ⟨i, by omega, h⟩
  · rintro ⟨i, hi, h⟩; exact ⟨i, by omega, h⟩

theorem krk_open_two (w : World) (path mode : List Byte) :
    krk_open w [.STRING path, .STRING mode] =
      if mode.length = 0 then
        krk_runtimeError w [.STRING path, .STRING mode] .typeError
          "open: mode string must not be empty"
      else if (List.range (mode.length - 1)).any (fun i => mode[i]? = some CH_b) then
        krk_runtimeError w [.STRING path, .STRING mode] .typeError
          "open: \x27b\x27 mode indicator must appear at end of mode string"
      else if mode[mode.length - 1]? = some CH_b then
        krk_open_build w [.STRING path, .STRING mode] path mode (mode.take (mode.length - 1)) true
      else
        krk_open_build w [.STRING path, .STRING mode] path mode mode false := by
  rfl

/-- C4: for every path and mode string, `open(path, mode)` raises a type error
(the usage error of a malformed mode), leaving the world untouched and so
without calling `fopen`, exactly when the mode is empty or has the byte `b` at
a position other than the last. Otherwise it calls `fopen` once: when the last
byte is `b`, with the mode minus that byte, and a successful open gives a
`BinaryFile`; when it is not, with the mode unchanged, and a successful open
gives a `File`. In both cases the object records the path and the mode as
given. With the mode omitted the outcome is that of mode `r`. -/
theorem open_mode_handling (w : World) (path mode : List Byte) :
    ((∃ msg, (krk_open w [.STRING path, .STRING mode]).result = .error ⟨.typeError, msg⟩) ↔
      (mode = [] ∨ ∃ i, i + 1 < mode.length ∧ mode[i]? = some CH_b)) ∧
    ((mode = [] ∨ ∃ i, i + 1 < mode.length ∧ mode[i]? = some CH_b) →
      (krk_open w [.STRING path, .STRING mode]).world = w) ∧
    (¬(mode = [] ∨ ∃ i, i + 1 < mode.length ∧ mode[i]? = some CH_b) →
      mode.getLast? = some CH_b →
      (krk_open w [.STRING path, .STRING mode]).world.trace =
          Call.fopen path mode.dropLast :: w.trace ∧
        (krk_open w [.STRING path, .STRING mode]).result =
          match (fopen w path mode.dropLast).2 with
          | none => .error ⟨.ioError, "open: failed to open file; system returned: %s"⟩
          | some file => .ok (.INSTANCE
              { _class := .BinaryFileClass,
                fields := [("filename", .STRING path), ("modestr", .STRING mode)],
                filePtr := some file, dirPtr := none, dict := [] })) ∧
    (¬(mode = [] ∨ ∃ i, i + 1 < mode.length ∧ mode[i]? = some CH_b) →
      mode.getLast? ≠ some CH_b →
      (krk_open w [.STRING path, .STRING mode]).world.trace =
          Call.fopen path mode :: w.trace ∧
        (krk_open w [.STRING path, .STRING mode]).result =
          match (fopen w path mode).2 with
          | none => .error ⟨.ioError, "open: failed to open file; system returned: %s"⟩
          | some file => .ok (.INSTANCE
              { _class := .FileClass,
                fields := [("filename", .STRING path), ("modestr", .STRING mode)],
                filePtr := some file, dirPtr := none, dict := [] })) ∧
    ((krk_open w [.STRING path]).world = (krk_open w [.STRING path, .STRING [CH_r]]).world ∧
      (krk_open w [.STRING path]).result =
        (krk_open w [.STRING path, .STRING [CH_r]]).result) := by
  have hlast : mode[mode.length - 1]? = mode.getLast? := by
    rw [List.getLast?_eq_getElem?]
  have hdl : mode.take (mode.length - 1) = mode.dropLast := by
    rw [List.dropLast_eq_take]
  have hnoterr : ∀ (argv : List KrkValue) (arg top : List Byte) (b : Bool) (msg : String),
      (krk_open_build w argv path arg top b).result ≠ .error ⟨.typeError, msg⟩ := by
    intro argv arg top b msg
    rw [krk_open_build_result]
    split <;> simp
  have homit : (krk_open w [.STRING path]).world =
        (krk_open w [.STRING path, .STRING [CH_r]]).world ∧
      (krk_open w [.STRING path]).result =
        (krk_open w [.STRING path, .STRING [CH_r]]).result := by
    have h1 : krk_open w [.STRING path] =
        krk_open_build w [.STRING path] path [CH_r] [CH_r] false := rfl
    have h2 : krk_open w [.STRING path, .STRING [CH_r]] =
        krk_open_build w [.STRING path, .STRING [CH_r]] path [CH_r] [CH_r] false := rfl
    rw [h1, h2]
    simp only [krk_open_build_world, krk_open_build_result, and_self]
  refine ⟨?_, ?_, ?_, ?_, homit⟩ <;> rw [krk_open_two]
  · by_cases h0 : mode.length = 0
    · have hnil : mode = [] := List.length_eq_zero.mp h0
      subst hnil
      simp [krk_runtimeError]
    · have hne : mode ≠ [] := fun h => h0 (by simp [h])
      by_cases hany : (List.range (mode.length - 1)).any
          (fun i => decide (mode[i]? = some CH_b)) = true
      · have hex := (any_range_iff mode).mp hany
        simp only [h0, if_false, hany, if_true, krk_runtimeError]
        exact ⟨fun _ => Or.inr hex, fun _ => ⟨_, rfl⟩⟩
      · have hnex : ¬ ∃ i, i + 1 < mode.length ∧ mode[i]? = some CH_b :=
          fun h => hany ((any_range_iff mode).mpr h)
        simp only [h0, if_false, hany, Bool.false_eq_true]
        constructor
        · rintro ⟨msg, h⟩
          split at h <;> exact absurd h (hnoterr _ _ _ _ _)
        · rintro (h | h)
          · exact absurd h hne
          · exact absurd h hnex
  · rintro (h | h)
    · subst h; rfl
    · have hany := (any_range_iff mode).mpr h
      have h0 : mode.length ≠ 0 := by obtain ⟨i, hi, _⟩ := h; omega
      simp only [h0, if_false, hany, if_true, krk_runtimeError]
  · intro hnbad hb
    have h0 : mode.length ≠ 0 := fun h => hnbad (Or.inl (List.length_eq_zero.mp h))
    have hany : ¬ (List.range (mode.length - 1)).any
        (fun i => decide (mode[i]? = some CH_b)) = true :=
      fun h => hnbad (Or.inr ((any_range_iff mode).mp h))
    simp only [h0, if_false, hany, Bool.false_eq_true, hlast, hdl, hb, if_true]
    rw [krk_open_build_world, fopen_trace, krk_open_build_result]
    exact ⟨rfl, rfl⟩
  · intro hnbad hb
    have h0 : mode.length ≠ 0 := fun h => hnbad (Or.inl (List.length_eq_zero.mp h))
    have hany : ¬ (List.range (mode.length - 1)).any
        (fun i => decide (mode[i]? = some CH_b)) = true :=
      fun h => hnbad (Or.inr ((any_range_iff mode).mp h))
    simp only [h0, if_false, hany, Bool.false_eq_true, hlast, hb]
    rw [krk_open_build_world, fopen_trace, krk_open_build_result]
    exact ⟨rfl, rfl⟩

/-- C4 at concrete modes: `rb` reaches `fopen` as `r`, and `br` is rejected
with the world untouched. -/
theorem open_mode_handling_witness :
    (krk_open ⟨[], [], none, false, 3, []⟩ [.STRING [47, 120], .STRING [CH_r, CH_b]]).world.trace =
        [Call.fopen [47, 120] [CH_r]] ∧
    (krk_open ⟨[], [], none, false, 3, []⟩ [.STRING [47, 120], .STRING [CH_b, CH_r]]).world =
        ⟨[], [], none, false, 3, []⟩ :=
  ⟨((open_mode_handling ⟨[], [], none, false, 3, []⟩ [47, 120] [CH_r, CH_b]).2.2.1
      (by
        rintro (h | ⟨i, hi, h⟩)
        · cases h
        · have hi0 : i = 0 := by simp at hi; omega
          subst hi0
          revert h
          decide)
      rfl).1,
   (open_mode_handling ⟨[], [], none, false, 3, []⟩ [47, 120] [CH_b, CH_r]).2.1
      (Or.inr ⟨0, by decide, rfl⟩)⟩

/-! ## Operations on a closed handle -/

/-- C5, counterexample: `write` on a closed FileStream given a bytes payload
raises a type error instead of returning the no-op result. -/
theorem closed_write_wrong_payload_raises :
    (krk_file_write ⟨[], [], none, false, 3, []⟩
        [.INSTANCE ⟨.FileClass, [], none, none, []⟩, .BYTES [1]]).result =
      .error ⟨.typeError, "write: expected string"⟩ :=
  rfl

/-- C5, amended: on a FileStream or BinaryStream whose handle is closed, with
any further arguments, `readLine`, `readAll`, `flush` and `close` return the
none value, `readAllLines` returns the empty list, and `write` given a payload
of the declared kind of the stream (a string for a FileStream, bytes for a
BinaryStream) returns the none value; none of them raises, the world (and so
the trace of platform calls) is unchanged, and the object, still closed, is
unchanged. `write` given no payload or a first argument that is not of the
declared kind raises a type error, with the world and the arguments
unchanged. -/
theorem closed_handle_operations_are_noops (fuel : Nat) (w : World)
    (self : KrkInstance KrkValue) (payload : List Byte) (args : List KrkValue)
    (hclosed : self.filePtr = none) :
    (self._class = .FileClass →
      krk_file_readline fuel w (.INSTANCE self :: args) =
        some ⟨w, .INSTANCE self :: args, .ok .NONE⟩ ∧
      krk_file_read fuel w (.INSTANCE self :: args) =
        some ⟨w, .INSTANCE self :: args, .ok .NONE⟩ ∧
      krk_file_readlines (fuel + 1) w (.INSTANCE self :: args) =
        some ⟨w, .INSTANCE self :: args, .ok (.LIST [])⟩ ∧
      krk_file_write w (.INSTANCE self :: .STRING payload :: args) =
        ⟨w, .INSTANCE self :: .STRING payload :: args, .ok .NONE⟩ ∧
      krk_file_flush w (.INSTANCE self :: args) = ⟨w, .INSTANCE self :: args, .ok .NONE⟩ ∧
      krk_file_close w (.INSTANCE self :: args) = ⟨w, .INSTANCE self :: args, .ok .NONE⟩) ∧
    (self._class = .BinaryFileClass →
      krk_file_readline_b fuel w (.INSTANCE self :: args) =
        some ⟨w, .INSTANCE self :: args, .ok .NONE⟩ ∧
      krk_file_read_b fuel w (.INSTANCE self :: args) =
        some ⟨w, .INSTANCE self :: args, .ok .NONE⟩ ∧
      krk_file_readlines_b (fuel + 1) w (.INSTANCE self :: args) =
        some ⟨w, .INSTANCE self :: args, .ok (.LIST [])⟩ ∧
      krk_file_write_b w (.INSTANCE self :: .BYTES payload :: args) =
        ⟨w, .INSTANCE self :: .BYTES payload :: args, .ok .NONE⟩ ∧
      krk_file_flush w (.INSTANCE self :: args) = ⟨w, .INSTANCE self :: args, .ok .NONE⟩ ∧
      krk_file_close w (.INSTANCE self :: args) = ⟨w, .INSTANCE self :: args, .ok .NONE⟩) ∧
    (∀ given : List KrkValue, (∀ chars tail, given ≠ .STRING chars :: tail) →
      krk_file_write w (.INSTANCE self :: given) =
        ⟨w, .INSTANCE self :: given, .error ⟨.typeError, "write: expected string"⟩⟩) ∧
    (∀ given : List KrkValue, (∀ bytes tail, given ≠ .BYTES bytes :: tail) →
      krk_file_write_b w (.INSTANCE self :: given) =
        ⟨w, .INSTANCE self :: given, .error ⟨.typeError, "write: expected bytes"⟩⟩) := by
  refine ⟨?_, ?_, ?_, ?_⟩
  · intro hcls
    have hsub : isSubclassOf self._class .FileClass = true := by rw [hcls]; rfl
    refine ⟨?_, ?_, ?_, ?_, ?_, ?_⟩
    · simp [krk_file_readline, hsub, readline_body, hclosed, krk_isInstanceOf]
    · simp [krk_file_read, hsub, read_body, hclosed, krk_isInstanceOf]
    · simp [krk_file_readlines, hsub, readlines_loop, krk_file_readline, readline_body, hclosed, krk_isInstanceOf]
    · simp [krk_file_write, hsub, write_body, hclosed, krk_isInstanceOf]
    · simp [krk_file_flush, hsub, hclosed, krk_isInstanceOf]
    · simp [krk_file_close, hsub, hclosed, krk_isInstanceOf]
  · intro hcls
    have hsub : isSubclassOf self._class .BinaryFileClass = true := by rw [hcls]; rfl
    have hsub2 : isSubclassOf self._class .FileClass = true := by rw [hcls]; rfl
    refine ⟨?_, ?_, ?_, ?_, ?_, ?_⟩
    · simp [krk_file_readline_b, hsub, readline_body, hclosed, krk_isInstanceOf]
    · simp [krk_file_read_b, hsub, read_body, hclosed, krk_isInstanceOf]
    · simp [krk_file_readlines_b, hsub, readlines_loop, krk_file_readline_b, readline_body,
        hclosed, krk_isInstanceOf]
    · simp [krk_file_write_b, hsub, write_body, hclosed, krk_isInstanceOf]
    · simp [krk_file_flush, hsub2, hclosed, krk_isInstanceOf]
    · simp [krk_file_close, hsub2, hclosed, krk_isInstanceOf]
  · intro given hgiven
    unfold krk_file_write
    split
    · next heq =>
      simp only [List.cons.injEq, KrkValue.INSTANCE.injEq] at heq
      exact absurd heq.2 (hgiven _ _)
    · rfl
  · intro given hgiven
    unfold krk_file_write_b
    split
    · next heq =>
      simp only [List.cons.injEq, KrkValue.INSTANCE.injEq] at heq
      exact absurd heq.2 (hgiven _ _)
    · rfl

/-- C5, amended, at a concrete closed FileStream. -/
theorem closed_handle_operations_are_noops_witness :
    krk_file_readline 0 ⟨[], [], none, false, 3, []⟩
        [.INSTANCE ⟨.FileClass, [], none, none, []⟩] =
      some ⟨⟨[], [], none, false, 3, []⟩, [.INSTANCE ⟨.FileClass, [], none, none, []⟩],
        .ok .NONE⟩ ∧
    krk_file_read 0 ⟨[], [], none, false, 3, []⟩ [.INSTANCE ⟨.FileClass, [], none, none, []⟩] =
      some ⟨⟨[], [], none, false, 3, []⟩, [.INSTANCE ⟨.FileClass, [], none, none, []⟩],
        .ok .NONE⟩ ∧
    krk_file_readlines 1 ⟨[], [], none, false, 3, []⟩
        [.INSTANCE ⟨.FileClass, [], none, none, []⟩] =
      some ⟨⟨[], [], none, false, 3, []⟩, [.INSTANCE ⟨.FileClass, [], none, none, []⟩],
        .ok (.LIST [])⟩ ∧
    krk_file_write ⟨[], [], none, false, 3, []⟩
        [.INSTANCE ⟨.FileClass, [], none, none, []⟩, .STRING [104]] =
      ⟨⟨[], [], none, false, 3, []⟩,
        [.INSTANCE ⟨.FileClass, [], none, none, []⟩, .STRING [104]], .ok .NONE⟩ ∧
    krk_file_flush ⟨[], [], none, false, 3, []⟩ [.INSTANCE ⟨.FileClass, [], none, none, []⟩] =
      ⟨⟨[], [], none, false, 3, []⟩, [.INSTANCE ⟨.FileClass, [], none, none, []⟩], .ok .NONE⟩ ∧
    krk_file_close ⟨[], [], none, false, 3, []⟩ [.INSTANCE ⟨.FileClass, [], none, none, []⟩] =
      ⟨⟨[], [], none, false, 3, []⟩, [.INSTANCE ⟨.FileClass, [], none, none, []⟩], .ok .NONE⟩ :=
  (closed_handle_operations_are_noops 0 ⟨[], [], none, false, 3, []⟩
    ⟨.FileClass, [], none, none, []⟩ [104] [] rfl).1 rfl

/-! ## The environment mapping -/

theorem krk_tableGet_set_self {K V : Type} [DecidableEq K] (t : List (K × V)) (k : K) (v : V) :
    krk_tableGet (krk_tableSet t k v) k = some v := by
  induction t with
  | nil => simp [krk_tableSet, krk_tableGet]
  | cons x xs ih =>
    obtain ⟨k0, v0⟩ := x
    by_cases h : k0 = k
    · simp [krk_tableSet, krk_tableGet, h]
    · simp [krk_tableSet, krk_tableGet, h, ih]

theorem krk_tableGet_set_other {K V : Type} [DecidableEq K] (t : List (K × V)) (k k1 : K)
    (v : V) (hne : k1 ≠ k) :
    krk_tableGet (krk_tableSet t k v) k1 = krk_tableGet t k1 := by
  induction t with
  | nil => simp [krk_tableSet, krk_tableGet, Ne.symm hne]
  | cons x xs ih =>
    obtain ⟨k0, v0⟩ := x
    by_cases h : k0 = k
    · subst h
      simp [krk_tableSet, krk_tableGet, Ne.symm hne]
    · by_cases h1 : k0 = k1
      · subst h1
        simp [krk_tableSet, krk_tableGet, h]
      · simp [krk_tableSet, krk_tableGet, h, h1, ih]

/-- C7, failing input: the mapping binds the key `A=B` (as `set("A=B", "x")`
leaves it) and `delete("A=B")` is called. The platform `unsetenv` fails (its
result is -1, a name must not contain `=`), and still no exception is raised
and the key is gone from the mapping. -/
theorem environ_delete_mirrors_after_platform_failure :
    (unsetenv ⟨[], [], some [[65, 61, 66, 61, 120]], false, 3, []⟩ [65, 61, 66]).2 = -1 ∧
    (krk_os_unsetenviron ⟨[], [], some [[65, 61, 66, 61, 120]], false, 3, []⟩
        [.INSTANCE ⟨.environClass, [], none, none, [([65, 61, 66], .STRING [120])]⟩,
          .STRING [65, 61, 66]]).result = .ok .NONE ∧
    (krk_os_unsetenviron ⟨[], [], some [[65, 61, 66, 61, 120]], false, 3, []⟩
        [.INSTANCE ⟨.environClass, [], none, none, [([65, 61, 66], .STRING [120])]⟩,
          .STRING [65, 61, 66]]).argv =
      [.INSTANCE ⟨.environClass, [], none, none, []⟩, .STRING [65, 61, 66]] :=
  ⟨rfl, rfl, rfl⟩

/-! ## Writes on an open handle -/

theorem krk_open_r_plus (w : World) (path d : List Byte) (h : lookupFile w.files path = some d) :
    krk_open w [.STRING path, .STRING [CH_r, CH_plus]] =
      ⟨⟨w.files, w.dirs, w.environ, w.nomem, w.nextFd + 1,
          .fopen path [CH_r, CH_plus] :: w.trace⟩,
       [.STRING path, .STRING [CH_r, CH_plus]],
       .ok (.INSTANCE ⟨.FileClass,
          [("filename", .STRING path), ("modestr", .STRING [CH_r, CH_plus])],
          some ⟨w.nextFd, path, d, 0, true, true, false, false, false⟩, none, []⟩)⟩ := by
  have : krk_open w [.STRING path, .STRING [CH_r, CH_plus]] =
      krk_open_build w [.STRING path, .STRING [CH_r, CH_plus]] path [CH_r, CH_plus]
        [CH_r, CH_plus] false := rfl
  rw [this]
  simp [krk_open_build, fopen, h, World.log, krk_newInstance, krk_attachNamedValue, krk_tableSet]

/-- C8, counterexample: the file `/x` holds one byte and is opened with mode
`r+`; `readAll()` returns that byte and leaves the end-of-file indicator set;
the following `write` of one byte on the still open handle returns the none
value and makes no platform call. -/
theorem write_after_end_of_stream_writes_nothing :
    writeAfterReadAll 2 ⟨[([47, 120], [104])], [], none, false, 3, []⟩ [47, 120]
        [CH_r, CH_plus] [97] =
      some (.ok (.STRING [104]), .ok .NONE, []) := by
  obtain ⟨w1, h⟩ := read_body_all .STRING 2
    ⟨[([47, 120], [104])], [], none, false, 4, [.fopen [47, 120] [CH_r, CH_plus]]⟩
    ⟨.FileClass, [("filename", .STRING [47, 120]), ("modestr", .STRING [CH_r, CH_plus])],
      some ⟨3, [47, 120], [104], 0, true, true, false, false, false⟩, none, []⟩ []
    ⟨3, [47, 120], [104], 0, true, true, false, false, false⟩ rfl rfl rfl rfl (by decide)
  simp only [writeAfterReadAll]
  rw [krk_open_r_plus ⟨[([47, 120], [104])], [], none, false, 3, []⟩ [47, 120] [104] rfl]
  simp only [krk_file_read, isSubclassOf, decide_True, Bool.not_true, Bool.true_or,
    Bool.false_eq_true, if_false, krk_isInstanceOf]
  rw [h]
  simp [krk_file_write, isSubclassOf, write_body, feof, krk_isInstanceOf]

theorem fwrite_trace (w : World) (f : FILE) (payload : List Byte) :
    (fwrite w f payload).1.trace = Call.fwrite f.fd payload :: w.trace := by
  unfold fwrite
  dsimp only
  split <;> rfl

/-- C8, amended: on an open FileStream (resp. BinaryStream) and a string (resp.
bytes) payload, when the end-of-file indicator of the stream is clear `write`
makes exactly one platform call, `fwrite` with the whole payload, and returns
the count that call reports as an integer; when the indicator is set `write`
returns the none value and the world and the object are unchanged. -/
theorem write_passes_payload_unless_eof (w : World) (self : KrkInstance KrkValue) (f : FILE)
    (payload : List Byte) (args : List KrkValue) (hopen : self.filePtr = some f) :
    (f.eof = false →
      (self._class = .FileClass →
        krk_file_write w (.INSTANCE self :: .STRING payload :: args) =
          ⟨(fwrite w f payload).1,
           .INSTANCE { self with filePtr := some (fwrite w f payload).2.1 } ::
             .STRING payload :: args,
           .ok (.INTEGER ((fwrite w f payload).2.2 : Nat))⟩) ∧
      (self._class = .BinaryFileClass →
        krk_file_write_b w (.INSTANCE self :: .BYTES payload :: args) =
          ⟨(fwrite w f payload).1,
           .INSTANCE { self with filePtr := some (fwrite w f payload).2.1 } ::
             .BYTES payload :: args,
           .ok (.INTEGER ((fwrite w f payload).2.2 : Nat))⟩) ∧
      (fwrite w f payload).1.trace = Call.fwrite f.fd payload :: w.trace) ∧
    (f.eof = true →
      (self._class = .FileClass →
        krk_file_write w (.INSTANCE self :: .STRING payload :: args) =
          ⟨w, .INSTANCE self :: .STRING payload :: args, .ok .NONE⟩) ∧
      (self._class = .BinaryFileClass →
        krk_file_write_b w (.INSTANCE self :: .BYTES payload :: args) =
          ⟨w, .INSTANCE self :: .BYTES payload :: args, .ok .NONE⟩)) := by
  refine ⟨fun heof => ⟨fun hcls => ?_, fun hcls => ?_, fwrite_trace w f payload⟩,
    fun heof => ⟨fun hcls => ?_, fun hcls => ?_⟩⟩
  · have hsub : isSubclassOf self._class .FileClass = true := by rw [hcls]; rfl
    simp [krk_file_write, hsub, write_body, hopen, feof, heof, krk_isInstanceOf]
  · have hsub : isSubclassOf self._class .BinaryFileClass = true := by rw [hcls]; rfl
    simp [krk_file_write_b, hsub, write_body, hopen, feof, heof, krk_isInstanceOf]
  · have hsub : isSubclassOf self._class .FileClass = true := by rw [hcls]; rfl
    simp [krk_file_write, hsub, write_body, hopen, feof, heof, krk_isInstanceOf]
  · have hsub : isSubclassOf self._class .BinaryFileClass = true := by rw [hcls]; rfl
    simp [krk_file_write_b, hsub, write_body, hopen, feof, heof, krk_isInstanceOf]

/-- C8, amended, at a concrete stream opened for writing. -/
theorem write_passes_payload_unless_eof_witness :
    krk_file_write ⟨[], [], none, false, 4, []⟩
        [.INSTANCE ⟨.FileClass, [], some ⟨3, [47], [], 0, false, true, false, false, false⟩,
          none, []⟩, .STRING [104, 105]] =
      ⟨⟨[], [], none, false, 4, [Call.fwrite 3 [104, 105]]⟩,
       [.INSTANCE ⟨.FileClass, [],
          some ⟨3, [47], [104, 105], 2, false, true, false, false, false⟩, none, []⟩,
        .STRING [104, 105]],
       .ok (.INTEGER 2)⟩ :=
  ((write_passes_payload_unless_eof ⟨[], [], none, false, 4, []⟩
    ⟨.FileClass, [], some ⟨3, [47], [], 0, false, true, false, false, false⟩, none, []⟩
    ⟨3, [47], [], 0, false, true, false, false, false⟩ [104, 105] [] rfl).1 rfl).1 rfl

/-! ## Exhausted sources -/

/-- C9, counterexample: the first `readAll()` on a just opened empty file
returns the empty string, not the none value. -/
theorem readAll_on_empty_file_returns_empty_string :
    (krk_file_read 1 ⟨[([47, 120], [])], [], none, false, 4, []⟩
        [.INSTANCE ⟨.FileClass, [], some ⟨3, [47, 120], [], 0, true, false, false, false, false⟩,
          none, []⟩]).map (fun r => r.result) = some (.ok (.STRING [])) := by
  obtain ⟨w1, h⟩ := read_body_all .STRING 1 ⟨[([47, 120], [])], [], none, false, 4, []⟩
    ⟨.FileClass, [], some ⟨3, [47, 120], [], 0, true, false, false, false, false⟩, none, []⟩ []
    ⟨3, [47, 120], [], 0, true, false, false, false, false⟩ rfl rfl rfl rfl (by decide)
  simp only [krk_file_read, isSubclassOf, decide_True, Bool.not_true, Bool.true_or,
    Bool.false_eq_true, if_false, krk_isInstanceOf]
  rw [h]
  rfl

theorem read_body_exhausted_error (mk : List Byte → KrkValue) (fuel : Nat) (w : World)
    (self : KrkInstance KrkValue) (args : List KrkValue) (f : FILE)
    (hopen : self.filePtr = some f) (hread : f.readable = true) (heof : f.eof = false)
    (herr : f.err = true) (hdone : f.data.drop f.pos = []) :
    (read_body mk (fuel + 1) w self args).map (fun r => r.result) =
      some (.error ⟨.ioError, "Read error."⟩) := by
  simp [read_body, hopen, feof, heof, read_do, growBuffer_file, fread, hread, hdone, ferror,
    herr, BLOCK_SIZE]

/-- C9, amended: on an open handle of a stream open for reading whose data is
exhausted, `readLine()` (text and binary) returns the none value. `readAll()`
returns the none value when the end-of-file indicator is already set at the
call. When that indicator is clear, as on the first read of an empty file,
`readAll()` returns the empty string (resp. the empty bytes) if the error
indicator of the stream is clear, and raises the I/O error `Read error.` if the
error indicator is set. -/
theorem exhausted_source_results (fuel : Nat) (w : World) (self : KrkInstance KrkValue)
    (f : FILE) (hopen : self.filePtr = some f) (hread : f.readable = true)
    (hdone : f.data.drop f.pos = []) (hfuel : 2 ≤ fuel) :
    (self._class = .FileClass →
      (krk_file_readline fuel w [.INSTANCE self]).map (fun r => r.result) = some (.ok .NONE) ∧
      (f.eof = true →
        (krk_file_read fuel w [.INSTANCE self]).map (fun r => r.result) = some (.ok .NONE)) ∧
      (f.eof = false → f.err = false →
        (krk_file_read fuel w [.INSTANCE self]).map (fun r => r.result) =
          some (.ok (.STRING []))) ∧
      (f.eof = false → f.err = true →
        (krk_file_read fuel w [.INSTANCE self]).map (fun r => r.result) =
          some (.error ⟨.ioError, "Read error."⟩))) ∧
    (self._class = .BinaryFileClass →
      (krk_file_readline_b fuel w [.INSTANCE self]).map (fun r => r.result) = some (.ok .NONE) ∧
      (f.eof = true →
        (krk_file_read_b fuel w [.INSTANCE self]).map (fun r => r.result) = some (.ok .NONE)) ∧
      (f.eof = false → f.err = false →
        (krk_file_read_b fuel w [.INSTANCE self]).map (fun r => r.result) =
          some (.ok (.BYTES []))) ∧
      (f.eof = false → f.err = true →
        (krk_file_read_b fuel w [.INSTANCE self]).map (fun r => r.result) =
          some (.error ⟨.ioError, "Read error."⟩))) := by
  have hline : ∀ mk : List Byte → KrkValue,
      (readline_body mk fuel w self []).map (fun r => r.result) = some (.ok .NONE) := by
    intro mk
    by_cases heof : f.eof = true
    · rw [readline_body_eof mk fuel w self [] f hopen heof]; rfl
    · have heof : f.eof = false := by simpa using heof
      obtain ⟨w1, k, e, hrun, hcase⟩ := readline_body_run mk fuel w self [] f [] [] hopen hread
        heof hdone (by simp) (Or.inl rfl) (by simp; omega)
      have hk : k = 0 := by rcases hcase with ⟨_, h, _⟩ | ⟨h, _, _⟩ <;> simp_all
      subst hk
      rw [hrun]; rfl
  have hall : ∀ mk : List Byte → KrkValue,
      (f.eof = true → (read_body mk fuel w self []).map (fun r => r.result) = some (.ok .NONE)) ∧
      (f.eof = false → f.err = false →
        (read_body mk fuel w self []).map (fun r => r.result) = some (.ok (mk []))) ∧
      (f.eof = false → f.err = true →
        (read_body mk fuel w self []).map (fun r => r.result) =
          some (.error ⟨.ioError, "Read error."⟩)) := by
    intro mk
    refine ⟨?_, ?_, ?_⟩
    · intro heof
      simp [read_body, hopen, feof, heof]
    · intro heof herr
      obtain ⟨w1, h⟩ := read_body_all mk fuel w self [] f hopen hread heof herr
        (by rw [hdone]; simp; omega)
      rw [h, hdone]; rfl
    · intro heof herr
      obtain ⟨n, rfl⟩ : ∃ n, fuel = n + 1 := ⟨fuel - 1, by omega⟩
      exact read_body_exhausted_error mk n w self [] f hopen hread heof herr hdone
  constructor
  · intro hcls
    have hsub : isSubclassOf self._class .FileClass = true := by rw [hcls]; rfl
    simp only [krk_file_readline, krk_file_read, hsub, Bool.not_true, Bool.false_eq_true,
      if_false, krk_isInstanceOf]
    exact ⟨hline _, hall _⟩
  · intro hcls
    have hsub : isSubclassOf self._class .BinaryFileClass = true := by rw [hcls]; rfl
    simp only [krk_file_readline_b, krk_file_read_b, hsub, Bool.not_true, Bool.false_eq_true,
      if_false, krk_isInstanceOf]
    exact ⟨hline _, hall _⟩

/-- C9, amended, at a just opened empty file, at one whose end-of-file
indicator is set, and at one whose error indicator is set. -/
theorem exhausted_source_results_witness :
    (krk_file_readline 2 ⟨[], [], none, false, 4, []⟩
        [.INSTANCE ⟨.FileClass, [], some ⟨3, [47], [], 0, true, false, false, false, false⟩,
          none, []⟩]).map (fun r => r.result) = some (.ok .NONE) ∧
    (krk_file_read 2 ⟨[], [], none, false, 4, []⟩
        [.INSTANCE ⟨.FileClass, [], some ⟨3, [47], [], 0, true, false, false, false, false⟩,
          none, []⟩]).map (fun r => r.result) = some (.ok (.STRING [])) ∧
    (krk_file_read 2 ⟨[], [], none, false, 4, []⟩
        [.INSTANCE ⟨.FileClass, [], some ⟨3, [47], [], 0, true, false, false, true, false⟩,
          none, []⟩]).map (fun r => r.result) = some (.ok .NONE) ∧
    (krk_file_read 2 ⟨[], [], none, false, 4, []⟩
        [.INSTANCE ⟨.FileClass, [], some ⟨3, [47], [], 0, true, false, false, false, true⟩,
          none, []⟩]).map (fun r => r.result) = some (.error ⟨.ioError, "Read error."⟩) :=
  ⟨((exhausted_source_results 2 ⟨[], [], none, false, 4, []⟩
      ⟨.FileClass, [], some ⟨3, [47], [], 0, true, false, false, false, false⟩, none, []⟩
      ⟨3, [47], [], 0, true, false, false, false, false⟩ rfl rfl rfl (by decide)).1 rfl).1,
   ((exhausted_source_results 2 ⟨[], [], none, false, 4, []⟩
      ⟨.FileClass, [], some ⟨3, [47], [], 0, true, false, false, false, false⟩, none, []⟩
      ⟨3, [47], [], 0, true, false, false, false, false⟩ rfl rfl rfl (by decide)).1 rfl).2.2.1
      rfl rfl,
   ((exhausted_source_results 2 ⟨[], [], none, false, 4, []⟩
      ⟨.FileClass, [], some ⟨3, [47], [], 0, true, false, false, true, false⟩, none, []⟩
      ⟨3, [47], [], 0, true, false, false, true, false⟩ rfl rfl rfl (by decide)).1 rfl).2.1
      rfl,
   ((exhausted_source_results 2 ⟨[], [], none, false, 4, []⟩
      ⟨.FileClass, [], some ⟨3, [47], [], 0, true, false, false, false, true⟩, none, []⟩
      ⟨3, [47], [], 0, true, false, false, false, true⟩ rfl rfl rfl (by decide)).1 rfl).2.2.2
      rfl rfl⟩

/-! ## Line reads on a stream that cannot be read -/

theorem readline_while_unreadable (fuel : Nat) (s : ReadState)
    (hr : s.file.readable = false) (heof : s.file.eof = false) :
    readline_while fuel s = none ∨
      ∃ s1, readline_while fuel s = some (s1, false) ∧ s1.file.readable = false ∧
        s1.file.eof = false ∧ s1.sizeRead = s.sizeRead := by
  cases fuel with
  | zero => left; rfl
  | succ n =>
    right
    by_cases hlt : s.sizeRead < s.spaceAvailable
    · exact ⟨{ s with world := s.world.log (.fgetc s.file.fd),
                      file := { s.file with err := true } },
        by simp [readline_while, hlt, fgetc, hr], hr, heof, rfl⟩
    · exact ⟨s, by simp [readline_while, hlt], hr, heof, rfl⟩

theorem readline_do_unreadable (fuel : Nat) : ∀ (s : ReadState),
    s.file.readable = false → s.file.eof = false → readline_do fuel s = none := by
  induction fuel with
  | zero => intro s _ _; rfl
  | succ n ih =>
    intro s hr heof
    rcases readline_while_unreadable n (growBuffer s) (by rw [growBuffer_file]; exact hr)
      (by rw [growBuffer_file]; exact heof) with h | ⟨s1, h, hr1, heof1, _⟩
    · simp [readline_do, h]
    · simp [readline_do, h, feof, heof1, ih s1 hr1 heof1]

theorem readline_body_unreadable (mk : List Byte → KrkValue) (fuel : Nat) (w : World)
    (self : KrkInstance KrkValue) (args : List KrkValue) (f : FILE)
    (hopen : self.filePtr = some f) (hr : f.readable = false) (heof : f.eof = false) :
    readline_body mk fuel w self args = none := by
  have h := readline_do_unreadable fuel ⟨w, f, [], 0, 0⟩ hr heof
  simp [readline_body, hopen, feof, heof, h]

/-- C10, failing input: a file opened with mode `w` (or `wb`) is open for
writing only, so every `fgetc` on it fails with the error indicator set and
the end-of-file indicator clear. On the object `open` returns, `readLine()` and
`readAllLines()` return with no amount of fuel: the loop `while (!feof(file))`
never ends. -/
theorem readAllLines_never_returns_on_write_only_stream (fuel : Nat) (w : World)
    (path : List Byte) :
    (∃ stream, (krk_open w [.STRING path, .STRING [CH_w]]).result = .ok stream ∧
      krk_file_readline fuel (krk_open w [.STRING path, .STRING [CH_w]]).world [stream] = none ∧
      krk_file_readlines fuel (krk_open w [.STRING path, .STRING [CH_w]]).world [stream]
        = none) ∧
    (∃ stream, (krk_open w [.STRING path, .STRING [CH_w, CH_b]]).result = .ok stream ∧
      krk_file_readline_b fuel (krk_open w [.STRING path, .STRING [CH_w, CH_b]]).world [stream]
        = none ∧
      krk_file_readlines_b fuel (krk_open w [.STRING path, .STRING [CH_w, CH_b]]).world [stream]
        = none) := by
  constructor
  · rw [krk_open_w]
    refine ⟨_, rfl, ?_, ?_⟩
    · simp only [krk_file_readline, isSubclassOf, decide_True, Bool.not_true, Bool.true_or,
        Bool.false_eq_true, if_false, krk_isInstanceOf]
      exact readline_body_unreadable _ _ _ _ _ _ rfl rfl rfl
    · cases fuel with
      | zero => rfl
      | succ n =>
        simp only [krk_file_readlines, isSubclassOf, decide_True, Bool.not_true, Bool.true_or,
          Bool.false_eq_true, if_false, readlines_loop, krk_file_readline, krk_isInstanceOf]
        rw [readline_body_unreadable _ _ _ _ _ _ rfl rfl rfl]
  · rw [krk_open_wb]
    refine ⟨_, rfl, ?_, ?_⟩
    · simp only [krk_file_readline_b, isSubclassOf, decide_True, Bool.not_true, Bool.true_or,
        Bool.false_eq_true, if_false, krk_isInstanceOf]
      exact readline_body_unreadable _ _ _ _ _ _ rfl rfl rfl
    · cases fuel with
      | zero => rfl
      | succ n =>
        simp only [krk_file_readlines_b, isSubclassOf, decide_True, Bool.not_true, Bool.true_or,
          Bool.false_eq_true, if_false, readlines_loop, krk_file_readline_b, krk_isInstanceOf]
        rw [readline_body_unreadable _ _ _ _ _ _ rfl rfl rfl]

/-- C1, failing input: the stream `open(path, "w")` returns (resp. `"wb"`) is
open and its remaining content is empty, that is no line and no unterminated
segment, so the first `readLine()` should return the none value. The stream is
open for writing only: every `fgetc` fails with the error indicator set and the
end-of-file indicator clear, and the call returns with no amount of fuel. -/
theorem readLine_never_returns_on_write_only_stream (fuel : Nat) (w : World)
    (path : List Byte) :
    (∃ (self : KrkInstance KrkValue) (f : FILE),
      (krk_open w [.STRING path, .STRING [CH_w]]).result = .ok (.INSTANCE self) ∧
      self._class = .FileClass ∧ self.filePtr = some f ∧
      f.data.drop f.pos = (([] : List (List Byte)).map (fun l => l ++ [NEWLINE])).flatten ++ [] ∧
      callRepeatedly (krk_file_readline fuel) ((linePieces [] []).length + 1)
        (krk_open w [.STRING path, .STRING [CH_w]]).world [.INSTANCE self] = none) ∧
    (∃ (self : KrkInstance KrkValue) (f : FILE),
      (krk_open w [.STRING path, .STRING [CH_w, CH_b]]).result = .ok (.INSTANCE self) ∧
      self._class = .BinaryFileClass ∧ self.filePtr = some f ∧
      f.data.drop f.pos = (([] : List (List Byte)).map (fun l => l ++ [NEWLINE])).flatten ++ [] ∧
      callRepeatedly (krk_file_readline_b fuel) ((linePieces [] []).length + 1)
        (krk_open w [.STRING path, .STRING [CH_w, CH_b]]).world [.INSTANCE self] = none) := by
  constructor
  · rw [krk_open_w]
    refine ⟨_, _, rfl, rfl, rfl, rfl, ?_⟩
    have h : krk_file_readline fuel
        ⟨storeFile w.files path [], w.dirs, w.environ, w.nomem, w.nextFd + 1,
          .fopen path [CH_w] :: w.trace⟩
        [.INSTANCE ⟨.FileClass, [("filename", .STRING path), ("modestr", .STRING [CH_w])],
          some ⟨w.nextFd, path, [], 0, false, true, false, false, false⟩, none, []⟩] = none := by
      simp only [krk_file_readline, krk_isInstanceOf, isSubclassOf, decide_True, Bool.not_true,
        Bool.true_or, Bool.false_eq_true, if_false]
      exact readline_body_unreadable _ _ _ _ _ _ rfl rfl rfl
    simp only [linePieces, List.map_nil, if_true, List.append_nil, List.length_nil, Nat.zero_add,
      callRepeatedly, h]
  · rw [krk_open_wb]
    refine ⟨_, _, rfl, rfl, rfl, rfl, ?_⟩
    have h : krk_file_readline_b fuel
        ⟨storeFile w.files path [], w.dirs, w.environ, w.nomem, w.nextFd + 1,
          .fopen path [CH_w] :: w.trace⟩
        [.INSTANCE ⟨.BinaryFileClass,
          [("filename", .STRING path), ("modestr", .STRING [CH_w, CH_b])],
          some ⟨w.nextFd, path, [], 0, false, true, false, false, false⟩, none, []⟩] = none := by
      simp only [krk_file_readline_b, krk_isInstanceOf, isSubclassOf, decide_True, Bool.not_true,
        Bool.true_or, Bool.false_eq_true, if_false]
      exact readline_body_unreadable _ _ _ _ _ _ rfl rfl rfl
    simp only [linePieces, List.map_nil, if_true, List.append_nil, List.length_nil, Nat.zero_add,
      callRepeatedly, h]

/-! ## String conversion of streams -/

theorem krk_open_result_instance (w : World) (path mode : List Byte) (stream : KrkValue)
    (h : (krk_open w [.STRING path, .STRING mode]).result = .ok stream) :
    ∃ (cls : KrkClass) (file : FILE), (cls = .FileClass ∨ cls = .BinaryFileClass) ∧
      stream = .INSTANCE ⟨cls, [("filename", .STRING path), ("modestr", .STRING mode)],
        some file, none, []⟩ := by
  rw [krk_open_two] at h
  split at h
  · simp [krk_runtimeError] at h
  · split at h
    · simp [krk_runtimeError] at h
    · split at h
      · rw [krk_open_build_result] at h
        split at h
        · simp at h
        · next file _ =>
          exact ⟨.BinaryFileClass, file, Or.inr rfl, by simpa using h.symm⟩
      · rw [krk_open_build_result] at h
        split at h
        · simp at h
        · next file _ =>
          exact ⟨.FileClass, file, Or.inl rfl, by simpa using h.symm⟩

theorem krk_file_str_of_fields (ptr : List Byte) (w : World) (cls : KrkClass)
    (path mode : List Byte) (filePtr : Option FILE) (args : List KrkValue)
    (hcls : cls = .FileClass ∨ cls = .BinaryFileClass) :
    (krk_file_str ptr w (.INSTANCE ⟨cls, [("filename", .STRING path), ("modestr", .STRING mode)],
        filePtr, none, []⟩ :: args)).result =
      .ok (.STRING (fileLabel (if filePtr.isSome then cstr "open" else cstr "closed")
        path mode ptr)) := by
  rcases hcls with rfl | rfl <;>
    simp [krk_file_str, krk_isInstanceOf, isSubclassOf, KrkClass.base, krk_tableGet, fileLabel,
      krk_copyString, strlen]

/-- The string conversion of a stream obtained from `open(path, mode)`: while
the handle is open the label is `<open file 'PATH', mode 'MODE' at PTR>`, and
after `close()` it is `<closed file 'PATH', mode 'MODE' at PTR>`; no exception
is raised. -/
theorem describe_of_opened_stream (ptr : List Byte) (w w1 w2 : World) (path mode : List Byte)
    (stream : KrkValue)
    (h : (krk_open w [.STRING path, .STRING mode]).result = .ok stream) :
    (krk_file_str ptr w1 [stream]).result =
        .ok (.STRING (fileLabel (cstr "open") path mode ptr)) ∧
      (krk_file_str ptr w2 (krk_file_close w1 [stream]).argv).result =
        .ok (.STRING (fileLabel (cstr "closed") path mode ptr)) := by
  obtain ⟨cls, file, hcls, rfl⟩ := krk_open_result_instance w path mode stream h
  constructor
  · rw [krk_file_str_of_fields ptr w1 cls path mode (some file) [] hcls]
    rfl
  · have hclose : (krk_file_close w1 [.INSTANCE ⟨cls,
        [("filename", .STRING path), ("modestr", .STRING mode)], some file, none, []⟩]).argv =
        [.INSTANCE ⟨cls, [("filename", .STRING path), ("modestr", .STRING mode)],
          none, none, []⟩] := by
      rcases hcls with rfl | rfl <;> rfl
    rw [hclose, krk_file_str_of_fields ptr w2 cls path mode none [] hcls]
    rfl

/-- C11, failing input: the objects `makeFileInstance` builds for `stdin`,
`stdout` and `stderr` hold the platform stream and the field `filename`, and no
field `modestr`; on each of them the string conversion raises the exception
`Corrupt File` instead of returning a label. -/
theorem describe_raises_corrupt_on_standard_streams (ptr : List Byte) (w : World)
    (stdin stdout stderr : FILE) :
    (∃ obj, krk_tableGet (krk_module_onload_fileio stdin stdout stderr) "stdin" =
        some (.INSTANCE obj) ∧ obj.filePtr = some stdin ∧
      (krk_file_str ptr w [.INSTANCE obj]).result = .error ⟨.baseException, "Corrupt File"⟩) ∧
    (∃ obj, krk_tableGet (krk_module_onload_fileio stdin stdout stderr) "stdout" =
        some (.INSTANCE obj) ∧ obj.filePtr = some stdout ∧
      (krk_file_str ptr w [.INSTANCE obj]).result = .error ⟨.baseException, "Corrupt File"⟩) ∧
    (∃ obj, krk_tableGet (krk_module_onload_fileio stdin stdout stderr) "stderr" =
        some (.INSTANCE obj) ∧ obj.filePtr = some stderr ∧
      (krk_file_str ptr w [.INSTANCE obj]).result = .error ⟨.baseException, "Corrupt File"⟩) :=
  ⟨⟨_, rfl, rfl, rfl⟩, ⟨_, rfl, rfl, rfl⟩, ⟨_, rfl, rfl, rfl⟩⟩

/-! ## The environment snapshot -/

theorem strchr_none (s : List Byte) (c : Byte) (h : strchr s c = none) : c ∉ s := by
  induction s with
  | nil => simp
  | cons x xs ih =>
    simp only [strchr] at h
    split at h
    · simp at h
    · next hx =>
      simp only [Option.map_eq_none'] at h
      simp only [List.mem_cons, not_or]
      exact ⟨fun hc => hx hc.symm, ih h⟩

theorem strchr_some (s : List Byte) (c : Byte) : ∀ (n : Nat), strchr s c = some n →
    s.take n = s.takeWhile (fun b => b ≠ c) ∧ s.drop n = c :: s.drop (n + 1) ∧
      n + 1 ≤ s.length := by
  induction s with
  | nil => intro n h; simp [strchr] at h
  | cons x xs ih =>
    intro n h
    simp only [strchr] at h
    split at h
    · next hx =>
      simp only [Option.some.injEq] at h
      subst h
      simp [hx]
    · next hx =>
      simp only [Option.map_eq_some'] at h
      obtain ⟨m, hm, rfl⟩ := h
      obtain ⟨h1, h2, h3⟩ := ih m hm
      refine ⟨?_, ?_, ?_⟩
      · simp [List.takeWhile_cons, hx, h1]
      · simpa using h2
      · simp; omega

theorem contains_iff_mem (s : List Byte) (c : Byte) : s.contains c = true ↔ c ∈ s := by
  simp

theorem environSnapshot_cons (e : List Byte) (more : List (List Byte)) (K : List Byte) :
    environSnapshot (e :: more) K =
      match environSnapshot more K with
      | some v => some v
      | none =>
        if e.contains CH_eq && decide (e.takeWhile (fun c => c ≠ CH_eq) = K)
        then some (e.drop (K.length + 1)) else none := by
  simp only [environSnapshot, List.filter_cons]
  cases hl : (more.filter (fun e => e.contains CH_eq &&
      decide (e.takeWhile (fun c => c ≠ CH_eq) = K))) with
  | nil => split <;> simp
  | cons y ys =>
    have hne : ((y :: ys).getLast?).map (fun e => e.drop (K.length + 1)) =
        some (((y :: ys).getLast (by simp)).drop (K.length + 1)) := by
      rw [List.getLast?_eq_getLast _ (by simp)]; rfl
    split
    · rw [List.getLast?_cons_cons, hne]
    · rw [hne]

theorem loadEnviron_loop_get (table : List (List Byte)) :
    ∀ (dict : List (List Byte × KrkValue)) (K : List Byte),
      krk_tableGet (_loadEnviron_loop table dict) K =
        match environSnapshot table K with
        | some v => some (KrkValue.STRING v)
        | none => krk_tableGet dict K := by
  induction table with
  | nil => intro dict K; simp [_loadEnviron_loop, environSnapshot]
  | cons e more ih =>
    intro dict K
    rw [environSnapshot_cons]
    cases hs : strchr e CH_eq with
    | none =>
      have hmem := strchr_none e CH_eq hs
      have hc : e.contains CH_eq = false := by simpa using hmem
      simp only [_loadEnviron_loop, hs, ih, hc, Bool.false_and, Bool.false_eq_true, if_false]
      cases environSnapshot more K <;> rfl
    | some keyLen =>
      obtain ⟨h1, h2, h3⟩ := strchr_some e CH_eq keyLen hs
      have hmem : CH_eq ∈ e := by
        have : CH_eq ∈ e.drop keyLen := by rw [h2]; simp
        exact List.mem_of_mem_drop this
      have hc : e.contains CH_eq = true := by simpa using hmem
      have hkl : (e.takeWhile (fun c => c ≠ CH_eq)).length = keyLen := by
        rw [← h1, List.length_take]; omega
      have hval : krk_copyString (e.drop (keyLen + 1)) (strlen e - keyLen - 1) =
          e.drop (keyLen + 1) := by
        simp only [krk_copyString, strlen]
        apply List.take_of_length_le
        simp; omega
      have hkey : krk_copyString e keyLen = e.takeWhile (fun c => c ≠ CH_eq) := h1
      simp only [_loadEnviron_loop, hs, ih, hc, Bool.true_and, hval, hkey]
      cases environSnapshot more K with
      | some v => rfl
      | none =>
        by_cases hk : e.takeWhile (fun c => c ≠ CH_eq) = K
        · subst hk
          rw [krk_tableGet_set_self]
          simp only [decide_True, if_true, hkl]
        · rw [krk_tableGet_set_other _ _ _ _ (Ne.symm hk)]
          simp only [hk, decide_False, Bool.false_eq_true, if_false]

theorem loadEnviron_loop_skips (table : List (List Byte)) :
    ∀ (dict : List (List Byte × KrkValue)),
      _loadEnviron_loop table dict =
        _loadEnviron_loop (table.filter (fun e => e.contains CH_eq)) dict := by
  induction table with
  | nil => intro dict; rfl
  | cons e more ih =>
    intro dict
    cases hs : strchr e CH_eq with
    | none =>
      have hc : e.contains CH_eq = false := by simpa using strchr_none e CH_eq hs
      simp only [List.filter_cons, hc, Bool.false_eq_true, if_false]
      simp only [_loadEnviron_loop, hs]
      exact ih dict
    | some keyLen =>
      obtain ⟨h1, h2, h3⟩ := strchr_some e CH_eq keyLen hs
      have hmem : CH_eq ∈ e := by
        have : CH_eq ∈ e.drop keyLen := by rw [h2]; simp
        exact List.mem_of_mem_drop this
      have hc : e.contains CH_eq = true := by simpa using hmem
      simp only [List.filter_cons, hc, if_true]
      simp only [_loadEnviron_loop, hs]
      exact ih _

theorem environSnapshot_shape (table : List (List Byte)) (K v : List Byte)
    (h : environSnapshot table K = some v) :
    ∃ e ∈ table, CH_eq ∉ K ∧ e = K ++ CH_eq :: v ∧ K.length + v.length + 1 = e.length := by
  simp only [environSnapshot, Option.map_eq_some'] at h
  obtain ⟨e, he, rfl⟩ := h
  have hmemf := List.mem_of_getLast?_eq_some he
  rw [List.mem_filter] at hmemf
  obtain ⟨hin, hcond⟩ := hmemf
  simp only [Bool.and_eq_true, decide_eq_true_eq] at hcond
  obtain ⟨hc, hk⟩ := hcond
  have hmem : CH_eq ∈ e := by simpa using hc
  obtain ⟨n, hn⟩ : ∃ n, strchr e CH_eq = some n := by
    cases hs : strchr e CH_eq with
    | none => exact absurd hmem (strchr_none e CH_eq hs)
    | some n => exact ⟨n, rfl⟩
  obtain ⟨h1, h2, h3⟩ := strchr_some e CH_eq n hn
  rw [← hk] at *
  have hlen : (e.takeWhile (fun c => c ≠ CH_eq)).length = n := by
    rw [← h1, List.length_take]; omega
  have hsplit : e = e.takeWhile (fun c => c ≠ CH_eq) ++ CH_eq :: e.drop (n + 1) := by
    conv_lhs => rw [← List.take_append_drop n e, h1, h2]
  refine ⟨e, hin, ?_, ?_, ?_⟩
  · intro hmk
    have := List.mem_takeWhile_imp hmk
    simp at this
  · rw [hlen]; exact hsplit
  · rw [hlen, List.length_drop]; omega

/-- C12: the object `_loadEnviron` builds is an `_Environ` mapping. With an
absent platform table it is empty. With a table, looking up any text `K` gives
exactly the snapshot the spec describes: a value is found when some entry
contains `=` and `K` is the part before its first `=`, and it is the part after
the first `=` of the last such entry; entries without `=` add nothing (the
load equals the load of the table without them). For a value `v` found under
`K`, the entry it comes from is `K=v`, so the key length plus the value length
plus one is the entry length. -/
theorem loadEnviron_is_the_snapshot (w : World) :
    (_loadEnviron w)._class = .environClass ∧
    (w.environ = none → (_loadEnviron w).dict = []) ∧
    (∀ table, w.environ = some table →
      (∀ K, krk_tableGet (_loadEnviron w).dict K =
        (environSnapshot table K).map KrkValue.STRING) ∧
      (_loadEnviron w).dict =
        (_loadEnviron ⟨w.files, w.dirs, some (table.filter (fun e => e.contains CH_eq)),
          w.nomem, w.nextFd, w.trace⟩).dict ∧
      ((∀ e ∈ table, CH_eq ∉ e) → (_loadEnviron w).dict = [])) ∧
    (∀ table K v, environSnapshot table K = some v →
      ∃ e ∈ table, CH_eq ∉ K ∧ e = K ++ CH_eq :: v ∧ K.length + v.length + 1 = e.length) := by
  refine ⟨?_, ?_, ?_, environSnapshot_shape⟩
  · unfold _loadEnviron
    split <;> rfl
  · intro h
    simp [_loadEnviron, h]
  · intro table h
    refine ⟨?_, ?_, ?_⟩
    · intro K
      simp only [_loadEnviron, h]
      rw [loadEnviron_loop_get]
      cases environSnapshot table K <;> rfl
    · simp only [_loadEnviron, h]
      exact loadEnviron_loop_skips table []
    · intro hno
      simp only [_loadEnviron, h]
      rw [loadEnviron_loop_skips]
      have : table.filter (fun e => e.contains CH_eq) = [] := by
        rw [List.filter_eq_nil_iff]
        intro e he
        simpa using hno e he
      rw [this]
      rfl

/-- C12 at a concrete table: `A=1`, `junk`, `A=2`, `B=x=y`. The key `A` maps to
`2`, the key `B` to `x=y`, and `junk` is not a key. -/
theorem loadEnviron_is_the_snapshot_witness :
    krk_tableGet (_loadEnviron ⟨[], [], some [[65, 61, 49], [106, 117, 110, 107], [65, 61, 50],
        [66, 61, 120, 61, 121]], false, 3, []⟩).dict [65] = some (.STRING [50]) ∧
    krk_tableGet (_loadEnviron ⟨[], [], some [[65, 61, 49], [106, 117, 110, 107], [65, 61, 50],
        [66, 61, 120, 61, 121]], false, 3, []⟩).dict [66] = some (.STRING [120, 61, 121]) ∧
    krk_tableGet (_loadEnviron ⟨[], [], some [[65, 61, 49], [106, 117, 110, 107], [65, 61, 50],
        [66, 61, 120, 61, 121]], false, 3, []⟩).dict [106, 117, 110, 107] = none :=
  ⟨((loadEnviron_is_the_snapshot ⟨[], [], some [[65, 61, 49], [106, 117, 110, 107], [65, 61, 50],
      [66, 61, 120, 61, 121]], false, 3, []⟩).2.2.1 _ rfl).1 [65],
   ((loadEnviron_is_the_snapshot ⟨[], [], some [[65, 61, 49], [106, 117, 110, 107], [65, 61, 50],
      [66, 61, 120, 61, 121]], false, 3, []⟩).2.2.1 _ rfl).1 [66],
   ((loadEnviron_is_the_snapshot ⟨[], [], some [[65, 61, 49], [106, 117, 110, 107], [65, 61, 50],
      [66, 61, 120, 61, 121]], false, 3, []⟩).2.2.1 _ rfl).1 [106, 117, 110, 107]⟩

/-! ## Capacity of the growable buffer -/

end Kuroko
